import Mathlib

/-!
# Verification of the SINU course-handbook chatbot message pipeline

A shallow embedding, in Lean 4, of the core of the chatbot repository:

* `src/app/api/chat/route.ts` — the proxy route: the recursive reply
  extractor `extractTextFromUnknown`, the leaf-string collector
  `collectStringsFromUnknown`, the JSON-response normalization of the
  `POST` handler, and its session-id validation;
* `src/lib/chatConfig.ts` — the configuration resolver `getChatConfig`,
  the error classifier `categorizeError`, the backoff computation
  `calculateBackoffDelay`, the cached health probe `ChatClient.checkHealth`,
  and the retry loop of `ChatClient.sendMessage`.

JavaScript strings are modelled by `String`, JSON numbers by `Int`,
machine time (`Date.now()`) by `Nat` milliseconds.  Asynchronous fetches
are modelled by oracles: a function from the attempt number to the
outcome of that attempt.
-/

/-! ## JavaScript string helpers

`String.prototype.includes`, `String.prototype.trim` (restricted to ASCII
whitespace, the only whitespace occurring in the repository's strings),
`String.prototype.slice(0, n)`, and `Array.prototype.join(" ")`, all defined
by structural recursion over the character list so that concrete instances
reduce inside the kernel. -/

/-- Is `pat` a prefix of `l`?  (`subAt pat l`) -/
def subAt : List Char → List Char → Bool
  | [], _ => true
  | _ :: _, [] => false
  | p :: ps, c :: cs => p == c && subAt ps cs

/-- Does `l` contain `pat` as a contiguous run? -/
def hasSub (pat : List Char) : List Char → Bool
  | [] => pat.isEmpty
  | c :: cs => subAt pat (c :: cs) || hasSub pat cs

/-- JS `s.includes(pat)`. -/
def strContains (s pat : String) : Bool :=
  hasSub pat.toList s.toList

/-- JS `s.trim()`: remove whitespace from both ends. -/
def jsTrim (s : String) : String :=
  ⟨((s.toList.dropWhile Char.isWhitespace).reverse.dropWhile Char.isWhitespace).reverse⟩

/-- JS `s.slice(0, n)` for `n ≥ 0`. -/
def jsSlice (s : String) (n : Nat) : String :=
  ⟨s.toList.take n⟩

/-- JS `parts.join(" ")`. -/
def joinSpace : List String → String
  | [] => ""
  | a :: rest => rest.foldl (fun acc s => acc ++ " " ++ s) a

/-- Decimal digits of `n`, most significant first; `[]` for `0`. -/
def natDecimalChars : Nat → List Char
  | 0 => []
  | n + 1 => natDecimalChars ((n + 1) / 10) ++ [Char.ofNat (48 + (n + 1) % 10)]
decreasing_by exact Nat.div_lt_self (Nat.succ_pos n) (by omega)

/-- JS `String(n)` for an integer-valued number. -/
def jsIntToString (n : Int) : String :=
  if n = 0 then "0"
  else if n < 0 then ⟨'-' :: natDecimalChars n.natAbs⟩
  else ⟨natDecimalChars n.natAbs⟩

/-- JS `String(b)` for a boolean. -/
def jsBoolToString (b : Bool) : String :=
  if b then "true" else "false"

/-! ## JSON values (tree form)

The values handled by the proxy route are the results of `JSON.parse`
(`await upstream.json()` / `JSON.parse(text)`), hence finite trees in which
every object and array has a distinct identity: the identity-based
`visited` set of `extractTextFromUnknown` / `collectStringsFromUnknown`
never fires on them, so it is omitted from this tree model.  The
graph-faithful model including the `visited` set is `extractH` below. -/

/-- A parsed JSON value.  Object fields are listed in key order
(`JSON.parse` keeps at most one binding per key). -/
inductive Json where
  | null
  | bool (b : Bool)
  | num (n : Int)
  | str (s : String)
  | arr (items : List Json)
  | obj (fields : List (String × Json))

/-- JS `obj[key]`: the value bound to `key`, if any. -/
def lookupField {α : Type} (fields : List (String × α)) (k : String) : Option α :=
  match fields with
  | [] => none
  | (k₀, v) :: rest => if k₀ = k then some v else lookupField rest k

/-- `route.ts` line 6: the preferred reply keys, in fixed priority. -/
def preferredKeys : List String :=
  ["reply", "response", "message", "text", "content", "output", "result", "answer"]

/-- `route.ts` line 40: the container keys tried next. -/
def containerKeys : List String :=
  ["data", "json", "body", "payload", "choices"]

theorem sizeOf_lookupField {α : Type} [SizeOf α] (fields : List (String × α)) (k : String)
    (v : α) (h : lookupField fields k = some v) : sizeOf v < sizeOf fields := by
  induction fields with
  | nil => simp [lookupField] at h
  | cons p rest ih =>
    obtain ⟨k₀, v₀⟩ := p
    by_cases hk : k₀ = k
    · simp [lookupField, hk] at h
      subst h
      simp
      omega
    · simp [lookupField, hk] at h
      have := ih h
      simp
      omega

mutual

/-- `route.ts` lines 5–58, `extractTextFromUnknown`, on tree-shaped input
(see the note on `Json` about the `visited` set).  Recursively locates a
human-readable reply string: strings are trimmed and returned when
non-empty, numbers and booleans are stringified, arrays yield the first
extraction among their items, and objects are searched first at the
preferred keys, then at the container keys, then over all their values. -/
def extractText : Json → Option String
  | .null => none
  | .bool b => some (jsBoolToString b)
  | .num n => some (jsIntToString n)
  | .str s => if (jsTrim s).length > 0 then some (jsTrim s) else none
  | .arr items => extractList items
  | .obj fields =>
    match extractKeys fields preferredKeys with
    | some s => some s
    | none =>
      match extractKeys fields containerKeys with
      | some s => some s
      | none => extractPairs fields
termination_by j => (sizeOf j, 0)

/-- The array loop of `extractTextFromUnknown` (lines 19–25): first
non-null extraction among the items. -/
def extractList : List Json → Option String
  | [] => none
  | j :: rest =>
    match extractText j with
    | some s => some s
    | none => extractList rest
termination_by l => (sizeOf l, 0)

/-- The key loops of `extractTextFromUnknown` (lines 33–37 and 41–46):
try each key in order, extracting from its value when the key is present.
(For the preferred keys the code reads `obj[key]` unconditionally and the
recursive call returns `null` on `undefined`; for the container keys it
first tests `key in obj` — the two behave identically.) -/
def extractKeys (fields : List (String × Json)) : List String → Option String
  | [] => none
  | k :: ks =>
    match h : lookupField fields k with
    | none => extractKeys fields ks
    | some v =>
      match extractText v with
      | some s => some s
      | none => extractKeys fields ks
termination_by ks => (sizeOf fields, ks.length + 1)
decreasing_by
  all_goals simp_wf
  all_goals first
    | exact Prod.Lex.right _ (Nat.lt_succ_self _)
    | exact Prod.Lex.left _ _ (sizeOf_lookupField _ _ _ h)

/-- The fallback loop of `extractTextFromUnknown` (lines 49–52): first
non-null extraction among all object values, in field order. -/
def extractPairs : List (String × Json) → Option String
  | [] => none
  | (_, v) :: rest =>
    match extractText v with
    | some s => some s
    | none => extractPairs rest
termination_by l => (sizeOf l, 0)

end

/-- Unfolding `extractKeys` when the key is absent. -/
theorem extractKeys_lookup_none (fields : List (String × Json)) (k : String)
    (ks : List String) (hl : lookupField fields k = none) :
    extractKeys fields (k :: ks) = extractKeys fields ks := by
  simp only [extractKeys]
  split
  · rfl
  · rename_i v heq
    simp only [hl] at heq
    simp at heq

/-- Unfolding `extractKeys` when the key is present. -/
theorem extractKeys_lookup_some (fields : List (String × Json)) (k : String)
    (ks : List String) (v : Json) (hl : lookupField fields k = some v) :
    extractKeys fields (k :: ks) =
      (match extractText v with
       | some s => some s
       | none => extractKeys fields ks) := by
  simp only [extractKeys]
  split
  · rename_i heq
    simp only [hl] at heq
    simp at heq
  · rename_i w heq
    simp only [hl] at heq
    injection heq with hw
    subst hw
    rfl

mutual

/-- `route.ts` lines 61–89, `collectStringsFromUnknown`, on tree-shaped
input: every non-empty trimmed string leaf plus the stringification of
every number and boolean, in depth-first order.  (The `out` accumulator of
the source is modelled by the returned list.) -/
def collectStrings : Json → List String
  | .null => []
  | .bool b => [jsBoolToString b]
  | .num n => [jsIntToString n]
  | .str s => if (jsTrim s).length > 0 then [jsTrim s] else []
  | .arr items => collectList items
  | .obj fields => collectPairs fields

/-- The array loop of `collectStringsFromUnknown`. -/
def collectList : List Json → List String
  | [] => []
  | j :: rest => collectStrings j ++ collectList rest

/-- The `Object.values` loop of `collectStringsFromUnknown`. -/
def collectPairs : List (String × Json) → List String
  | [] => []
  | (_, v) :: rest => collectStrings v ++ collectPairs rest

end

example : extractText (.obj [("reply", .str " hi ")]) = some "hi" := by
  simp [extractText, extractKeys, lookupField, preferredKeys, containerKeys, jsTrim] <;> decide

example : collectStrings (.obj [("a", .str "x"), ("b", .arr [.str " y "])]) = ["x", "y"] := by
  simp [collectStrings, collectPairs, collectList, jsTrim] <;> decide

/-! ## The proxy `POST` handler (`route.ts` lines 131–458)

Modelled piecewise: session-id validation (lines 208–221) and the
normalization of a successful upstream response (lines 315–445). -/

/-- `route.ts` lines 377 and 427: the fixed fallback sentence. -/
def FALLBACK_REPLY : String :=
  "Sorry, I could not generate a response at the moment. Please try again or rephrase your question."

/-- `route.ts` lines 331–383: given the parsed JSON body of a 2xx
upstream response with an `application/json` content type, the handler
returns status 200 and the body `{reply: s}` where `s` is the extracted
text, else the collected leaf strings joined with single spaces and
sliced to 4000 characters, else the fixed fallback sentence.
(The `try`/`catch` around `collectStringsFromUnknown` is dropped: the
collector is total, so its `catch` arm is unreachable.) -/
def handleJsonBody (json : Json) : Nat × Json :=
  match extractText json with
  | some extracted => (200, .obj [("reply", .str extracted)])
  | none =>
    let collected := collectStrings json
    if collected.length > 0 then
      (200, .obj [("reply", .str (jsSlice (joinSpace collected) 4000))])
    else
      (200, .obj [("reply", .str FALLBACK_REPLY)])

/-- The upstream webhook's reply as seen by the handler: HTTP status,
whether the `content-type` includes `application/json`, the parsed JSON
body (for the JSON case) and the raw text (otherwise). -/
structure Upstream where
  status : Nat
  contentTypeJson : Bool
  bodyJson : Json
  bodyText : String

/-- `response.ok`: status in `[200, 300)`. -/
def Upstream.okStatus (u : Upstream) : Bool :=
  200 ≤ u.status && u.status < 300

/-- The handler's response to the client. -/
inductive RouteResponse where
  | jsonResp (status : Nat) (body : Json)
  | passthrough (status : Nat) (rawText : String)
  | textPath (rawText : String)

/-- `route.ts` lines 316–445, the dispatch on the upstream response:
non-2xx statuses are passed through with their body (lines 316–329); a
2xx JSON response is normalized by `handleJsonBody` (lines 331–383); any
other 2xx response goes to the text branch (lines 385–445, summarized as
`textPath` — no claim concerns it). -/
def handleUpstream (u : Upstream) : RouteResponse :=
  if !u.okStatus then
    .passthrough u.status u.bodyText
  else if u.contentTypeJson then
    let (st, body) := handleJsonBody u.bodyJson
    .jsonResp st body
  else
    .textPath u.bodyText

/-- The JavaScript value found at `body.sessionId` in the request. -/
inductive SessionIdValue where
  | absent
  | null
  | str (s : String)
  | num (n : Int)
  | bool (b : Bool)
  | object

/-- An error response `{error, code}` with its HTTP status. -/
structure ErrorResponse where
  status : Nat
  error : String
  code : String
deriving DecidableEq

/-- `route.ts` lines 208–221: resolve the session id.  The test
`!sessionId || typeof sessionId !== 'string' || sessionId.trim().length < 8`
holds for every non-string value (the falsy `undefined`, `null`, `0`,
`false`, and every truthy non-string fail the `typeof` test; the falsy
empty string has trimmed length 0 < 8), so exactly the string
values with trimmed length at least 8 are kept; everything else is
replaced by a freshly generated `crypto.randomUUID()` (passed here as
`freshUUID`).  The resulting id is then rejected with
400/`SESSION_ID_TOO_LONG` when longer than 100 characters. -/
def resolveSessionId (v : SessionIdValue) (freshUUID : String) :
    Except ErrorResponse String :=
  let sessionId :=
    match v with
    | .str s => if (jsTrim s).length < 8 then freshUUID else s
    | _ => freshUUID
  if sessionId.length > 100 then
    .error ⟨400, "Session ID is too long", "SESSION_ID_TOO_LONG"⟩
  else
    .ok sessionId

/-! ## Configuration resolver (`chatConfig.ts` lines 1–40) -/

/-- JS `parseInt(s)` in base 10 (`none` models `NaN`): skip leading
whitespace, read an optional sign, then the longest run of decimal
digits; `NaN` when that run is empty.  (The hexadecimal `0x` form of
`parseInt` is omitted: no claim involves it.) -/
def parseIntJS (s : String) : Option Int :=
  let cs := s.toList.dropWhile Char.isWhitespace
  let (sign, digitsPart) :=
    match cs with
    | '-' :: rest => ((-1 : Int), rest)
    | '+' :: rest => ((1 : Int), rest)
    | _ => ((1 : Int), cs)
  let ds := digitsPart.takeWhile Char.isDigit
  if ds.isEmpty then none
  else some (sign * ds.foldl (fun a c => a * 10 + ((c.toNat : Int) - 48)) 0)

/-- JS `value || default` on an optional environment string: the default
is used when the variable is unset or bound to the empty string (both
falsy). -/
def jsOrDefault (v : Option String) (d : String) : String :=
  match v with
  | some s => if s = "" then d else s
  | none => d

/-- The environment variables read by `getChatConfig` (server side). -/
structure Env where
  chatApiEndpoint : Option String := none
  chatTimeout : Option String := none
  chatMaxRetries : Option String := none
  chatRetryDelay : Option String := none

/-- The resolved configuration.  The numeric fields are JS numbers
produced by `parseInt`, hence possibly `NaN` (modelled by `none`). -/
structure RawChatConfig where
  apiEndpoint : String
  timeout : Option Int
  maxRetries : Option Int
  retryDelay : Option Int
  healthCheckEndpoint : String

/-- `chatConfig.ts` lines 20–30, the server-side branch of
`getChatConfig`: spread `DEFAULT_CONFIG`, then override `apiEndpoint`,
`timeout`, `maxRetries` and `retryDelay` from the environment.
`healthCheckEndpoint` is not overridden — it stays at the default
`'/api/chat'` from the spread. -/
def getChatConfig (env : Env) : RawChatConfig where
  apiEndpoint := jsOrDefault env.chatApiEndpoint "/api/chat"
  timeout := parseIntJS (jsOrDefault env.chatTimeout "30000")
  maxRetries := parseIntJS (jsOrDefault env.chatMaxRetries "3")
  retryDelay := parseIntJS (jsOrDefault env.chatRetryDelay "1000")
  healthCheckEndpoint := "/api/chat"

/-! ## Error classification (`chatConfig.ts` lines 42–128) -/

/-- `ChatErrorType` (lines 43–50). -/
inductive ChatErrorType where
  | NETWORK_ERROR
  | TIMEOUT
  | RATE_LIMIT
  | INVALID_RESPONSE
  | SERVICE_UNAVAILABLE
  | UNKNOWN
deriving DecidableEq

/-- `ChatError` (lines 52–58). -/
structure ChatError where
  type : ChatErrorType
  message : String
  code : Option String := none
  retryable : Bool
  statusCode : Option Nat := none
deriving DecidableEq

/-- A thrown JavaScript error, as inspected by `categorizeError`:
its `name` and `message`. -/
structure JsError where
  name : String
  message : String

/-- The part of a `Response` that `categorizeError` inspects. -/
structure RespStatus where
  status : Nat

/-- `chatConfig.ts` lines 61–128, `categorizeError`: classify a thrown
error, using the HTTP response when one is available, in the fixed
precedence of the source. -/
def categorizeError (error : JsError) (response : Option RespStatus := none) : ChatError :=
  if error.name = "TypeError" && strContains error.message "fetch" then
    { type := .NETWORK_ERROR
      message := "Unable to connect to the chat service. Please check your internet connection."
      retryable := true }
  else if error.name = "AbortError" || strContains error.message "timeout" then
    { type := .TIMEOUT
      message := "Request timed out. The service may be experiencing high load."
      retryable := true }
  else
    match response with
    | some r =>
      if r.status = 429 then
        { type := .RATE_LIMIT
          message := "Too many requests. Please wait a moment before trying again."
          retryable := true
          statusCode := some r.status }
      else if r.status ≥ 500 then
        { type := .SERVICE_UNAVAILABLE
          message := "The chat service is temporarily unavailable. Please try again in a few moments."
          retryable := true
          statusCode := some r.status }
      else if r.status ≥ 400 then
        { type := .INVALID_RESPONSE
          message := "There was an issue with your request. Please try rephrasing your message."
          retryable := false
          statusCode := some r.status }
      else if strContains error.message "RATE_LIMIT" then
        { type := .RATE_LIMIT
          message := "Rate limit exceeded. Please wait before sending another message."
          retryable := true }
      else
        { type := .UNKNOWN
          message := "An unexpected error occurred. Please try again."
          retryable := true }
    | none =>
      if strContains error.message "RATE_LIMIT" then
        { type := .RATE_LIMIT
          message := "Rate limit exceeded. Please wait before sending another message."
          retryable := true }
      else
        { type := .UNKNOWN
          message := "An unexpected error occurred. Please try again."
          retryable := true }

/-- `chatConfig.ts` lines 136–138, `calculateBackoffDelay`:
`min(baseDelay * 2^(attempt - 1), 10000)`. -/
def calculateBackoffDelay (attempt : Nat) (baseDelay : Nat) : Nat :=
  min (baseDelay * 2 ^ (attempt - 1)) 10000

/-! ## Health probe with cache (`chatConfig.ts` lines 228–297) -/

/-- `HealthCheckResult` (lines 228–232). -/
structure HealthCheckResult where
  healthy : Bool
  error : Option String := none
  latency : Option Nat := none
deriving DecidableEq

/-- The `healthCheckCache` field: a result with the timestamp at which
it was stored. -/
structure HealthCache where
  result : HealthCheckResult
  timestamp : Nat
deriving DecidableEq

/-- `HEALTH_CHECK_CACHE_TTL` (line 238): 30 seconds. -/
def HEALTH_CHECK_CACHE_TTL : Nat := 30000

/-- What the probe's `fetch` did: responded with a status, or threw. -/
inductive ProbeOutcome where
  | resp (status : Nat) (statusText : String)
  | thrown (message : String)

/-- Lines 268–295: the `HealthCheckResult` computed from an actual probe
(`response.ok` is status in `[200, 300)`); a thrown error with an empty
message falls back to `'Health check failed'`. -/
def probeResult (outcome : ProbeOutcome) (latency : Nat) : HealthCheckResult :=
  match outcome with
  | .resp status statusText =>
    if 200 ≤ status && status < 300 then
      { healthy := true, latency := some latency }
    else
      { healthy := false
        error := some ("HTTP " ++ jsIntToString status ++ ": " ++ statusText)
        latency := some latency }
  | .thrown message =>
    { healthy := false
      error := some (if message = "" then "Health check failed" else message)
      latency := some latency }

/-- `chatConfig.ts` lines 241–297, `ChatClient.checkHealth`: serve the
cached result when it is younger than the TTL; otherwise probe (the
probe's outcome and measured latency are inputs here) and overwrite the
cache with the fresh result stamped `now`.  Returns the result, the new
cache state, and whether a network request was issued. -/
def checkHealth (cache : Option HealthCache) (now : Nat)
    (probe : ProbeOutcome) (latency : Nat) :
    HealthCheckResult × Option HealthCache × Bool :=
  match cache with
  | some c =>
    if now - c.timestamp < HEALTH_CHECK_CACHE_TTL then
      (c.result, some c, false)
    else
      let result := probeResult probe latency
      (result, some ⟨result, now⟩, true)
  | none =>
    let result := probeResult probe latency
    (result, some ⟨result, now⟩, true)

/-! ## The `sendMessage` retry loop (`chatConfig.ts` lines 300–411)

The loop is modelled as a pure recursion over the remaining loop
iterations.  The backend is an oracle mapping the attempt number to that
attempt's outcome; suspensions (`await sleep(delay)`) are recorded in the
returned list of waited delays. -/

/-- The part of a fetched `Response` that `sendMessage` inspects. -/
structure FetchResponse where
  status : Nat
  contentTypeJson : Bool
  bodyJson : Json
  rawText : String

/-- `response.ok`. -/
def FetchResponse.okStatus (r : FetchResponse) : Bool :=
  200 ≤ r.status && r.status < 300

/-- One attempt's outcome: the `fetch` resolved, or threw. -/
inductive FetchOutcome where
  | resp (r : FetchResponse)
  | err (e : JsError)

/-- The observable result of a `sendMessage` call: the value returned or
the message thrown, the number of attempts that issued a request, and
the backoff delays waited (in order). -/
structure SendResult where
  outcome : Except String Json
  attempts : Nat
  delays : List Nat

/-- Line 403–405: the final error when `lastError` was never set. -/
def finalMessage (lastError : Option ChatError) : String :=
  match lastError with
  | some e => e.message
  | none => "Failed to send message after multiple attempts"

/-- `chatConfig.ts` lines 316–400, the body of the `for` loop of
`sendMessage`, one constructor case per control path:

* `remaining` counts the loop iterations left (`maxRetries - attempt + 1`);
* on entering an iteration with `attempt > 1`, a backoff delay is waited;
* a non-OK response is classified; a *retryable* classification sets
  `lastError` and continues; a *non-retryable* one logs and executes
  `throw new Error(error.message)` — which the `catch` of the same `try`
  intercepts and re-classifies (with no response at hand) before deciding
  whether to break or continue, exactly as the source does;
* an OK response returns the parsed body (`{reply: rawText}` when the
  content type is not JSON);
* a thrown fetch error is classified in the `catch`, which breaks when
  the classification is non-retryable or the attempts are exhausted.

Exiting the loop throws `finalMessage lastError` (lines 402–410). -/
def sendLoop (maxRetries retryDelay : Nat) (backend : Nat → FetchOutcome) :
    Nat → Nat → Option ChatError → List Nat → SendResult
  | 0, attempt, lastError, delays =>
    ⟨.error (finalMessage lastError), attempt - 1, delays⟩
  | remaining + 1, attempt, lastError, delays =>
    let delays :=
      if attempt > 1 then delays ++ [calculateBackoffDelay (attempt - 1) retryDelay]
      else delays
    match backend attempt with
    | .resp r =>
      if r.okStatus = false then
        let error := categorizeError ⟨"Error", "HTTP " ++ jsIntToString r.status⟩
          (some ⟨r.status⟩)
        if error.retryable = false then
          let chatError := categorizeError ⟨"Error", error.message⟩ none
          if chatError.retryable = false ∨ attempt = maxRetries then
            ⟨.error (finalMessage (some chatError)), attempt, delays⟩
          else
            sendLoop maxRetries retryDelay backend remaining (attempt + 1)
              (some chatError) delays
        else
          sendLoop maxRetries retryDelay backend remaining (attempt + 1)
            (some error) delays
      else
        let data :=
          if r.contentTypeJson then r.bodyJson
          else .obj [("reply", .str r.rawText)]
        ⟨.ok data, attempt, delays⟩
    | .err e =>
      let chatError := categorizeError e none
      if chatError.retryable = false ∨ attempt = maxRetries then
        ⟨.error (finalMessage (some chatError)), attempt, delays⟩
      else
        sendLoop maxRetries retryDelay backend remaining (attempt + 1)
          (some chatError) delays

/-- `sendMessage` itself: run the loop from `attempt = 1` with
`remaining = maxRetries`, no `lastError` and no delays waited. -/
def sendMessage (maxRetries retryDelay : Nat) (backend : Nat → FetchOutcome) : SendResult :=
  sendLoop maxRetries retryDelay backend maxRetries 1 none []

/-! ## Graph model of the extractor (cyclic values)

JavaScript values may form arbitrary graphs (a value can reference its
own ancestors).  To speak about cycles we model the store explicitly: a
`Heap` maps array ids to their items and object ids to their fields, and
a value is a primitive or a reference into the heap.  The identity-based
`visited` set of the source becomes a list of visited *object* ids —
faithfully to the source, which adds only plain objects to the set
(arrays are traversed unguarded, `route.ts` lines 19–25 and 75–78).

The recursion of the source need not terminate on such graphs, so the
model is fuelled: each recursive call steps down one fuel level, `none`
meaning the fuel was exhausted.  A run of the unfuelled source
terminates exactly when some (equivalently, every sufficiently large)
fuel suffices.  The mutated `visited` set is threaded: each call
returns the updated visited list alongside its result. -/

/-- A JavaScript value in graph form. -/
inductive HVal where
  | null
  | bool (b : Bool)
  | num (n : Int)
  | str (s : String)
  | arrRef (id : Nat)
  | objRef (id : Nat)
deriving DecidableEq

/-- The store: arrays and objects, addressed by id. -/
structure Heap where
  arrays : List (List HVal)
  objects : List (List (String × HVal))

mutual

/-- `extractTextFromUnknown` on a heap value.  Mirrors the tree model
`extractText` case by case, plus the visited-set handling of the source:
an object already visited yields `null` (line 29); an unvisited object
is added to the set (line 30) before its three search phases run. -/
def extractH (h : Heap) : Nat → HVal → List Nat → Option (Option String × List Nat)
  | 0, _, _ => none
  | fuel + 1, v, visited =>
    match v with
    | .null => some (none, visited)
    | .bool b => some (some (jsBoolToString b), visited)
    | .num n => some (some (jsIntToString n), visited)
    | .str s => some (if (jsTrim s).length > 0 then some (jsTrim s) else none, visited)
    | .arrRef id =>
      match h.arrays[id]? with
      | none => some (none, visited)
      | some items => extractHList h fuel items visited
    | .objRef id =>
      if id ∈ visited then some (none, visited)
      else
        match h.objects[id]? with
        | none => some (none, visited)
        | some fields =>
          match extractHKeys h fuel fields preferredKeys (visited ++ [id]) with
          | none => none
          | some (some s, visited₁) => some (some s, visited₁)
          | some (none, visited₁) =>
            match extractHKeys h fuel fields containerKeys visited₁ with
            | none => none
            | some (some s, visited₂) => some (some s, visited₂)
            | some (none, visited₂) => extractHPairs h fuel fields visited₂
termination_by fuel => (fuel, 0)

/-- The array loop on heap values. -/
def extractHList (h : Heap) (fuel : Nat) : List HVal → List Nat → Option (Option String × List Nat)
  | [], visited => some (none, visited)
  | v :: rest, visited =>
    match extractH h fuel v visited with
    | none => none
    | some (some s, visited₁) => some (some s, visited₁)
    | some (none, visited₁) => extractHList h fuel rest visited₁
termination_by l => (fuel, l.length + 1)

/-- The key loops on heap values. -/
def extractHKeys (h : Heap) (fuel : Nat) (fields : List (String × HVal)) :
    List String → List Nat → Option (Option String × List Nat)
  | [], visited => some (none, visited)
  | k :: ks, visited =>
    match lookupField fields k with
    | none => extractHKeys h fuel fields ks visited
    | some v =>
      match extractH h fuel v visited with
      | none => none
      | some (some s, visited₁) => some (some s, visited₁)
      | some (none, visited₁) => extractHKeys h fuel fields ks visited₁
termination_by ks => (fuel, ks.length + 1)

/-- The fallback loop over all object values, on heap values. -/
def extractHPairs (h : Heap) (fuel : Nat) :
    List (String × HVal) → List Nat → Option (Option String × List Nat)
  | [], visited => some (none, visited)
  | (_, v) :: rest, visited =>
    match extractH h fuel v visited with
    | none => none
    | some (some s, visited₁) => some (some s, visited₁)
    | some (none, visited₁) => extractHPairs h fuel rest visited₁
termination_by l => (fuel, l.length + 1)

end

mutual

/-- `collectStringsFromUnknown` on a heap value: appends every
non-empty trimmed string leaf and every stringified number or boolean
to `out`, guarding (only) objects with the visited set, exactly as the
source does (lines 61–89). -/
def collectH (h : Heap) : Nat → HVal → List String → List Nat → Option (List String × List Nat)
  | 0, _, _, _ => none
  | fuel + 1, v, out, visited =>
    match v with
    | .null => some (out, visited)
    | .bool b => some (out ++ [jsBoolToString b], visited)
    | .num n => some (out ++ [jsIntToString n], visited)
    | .str s =>
      some (if (jsTrim s).length > 0 then out ++ [jsTrim s] else out, visited)
    | .arrRef id =>
      match h.arrays[id]? with
      | none => some (out, visited)
      | some items => collectHList h fuel items out visited
    | .objRef id =>
      if id ∈ visited then some (out, visited)
      else
        match h.objects[id]? with
        | none => some (out, visited)
        | some fields => collectHPairs h fuel fields out (visited ++ [id])
termination_by fuel => (fuel, 0)

/-- The array loop of the collector on heap values. -/
def collectHList (h : Heap) (fuel : Nat) :
    List HVal → List String → List Nat → Option (List String × List Nat)
  | [], out, visited => some (out, visited)
  | v :: rest, out, visited =>
    match collectH h fuel v out visited with
    | none => none
    | some (out₁, visited₁) => collectHList h fuel rest out₁ visited₁
termination_by l => (fuel, l.length + 1)

/-- The `Object.values` loop of the collector on heap values. -/
def collectHPairs (h : Heap) (fuel : Nat) :
    List (String × HVal) → List String → List Nat → Option (List String × List Nat)
  | [], out, visited => some (out, visited)
  | (_, v) :: rest, out, visited =>
    match collectH h fuel v out visited with
    | none => none
    | some (out₁, visited₁) => collectHPairs h fuel rest out₁ visited₁
termination_by l => (fuel, l.length + 1)

end

/-- The source recursion diverges on `(h, v)`: no fuel suffices. -/
def extractDiverges (h : Heap) (v : HVal) : Prop :=
  ∀ fuel, extractH h fuel v [] = none

/-- The collector recursion diverges on `(h, v)`: no fuel suffices. -/
def collectDiverges (h : Heap) (v : HVal) : Prop :=
  ∀ fuel, collectH h fuel v [] [] = none

/-- A heap whose single array is the array containing itself —
`const a = []; a.push(a)` — the smallest cycle passing only through
arrays. -/
def selfArrayHeap : Heap :=
  { arrays := [[.arrRef 0]], objects := [] }

/-- A rank function witnessing that the direct array-to-array reference
graph of `h` is acyclic (equivalently: every reference cycle of `h`
passes through an object), together with a bound `R` on the ranks. -/
def ArrayRanked (h : Heap) (rank : Nat → Nat) (R : Nat) : Prop :=
  (∀ id, id < h.arrays.length → rank id < R) ∧
  (∀ id items, h.arrays[id]? = some items →
    ∀ id2, HVal.arrRef id2 ∈ items → id2 < h.arrays.length → rank id2 < rank id)

/-- The number of heap objects not yet visited. -/
def unvisitedCount (h : Heap) (visited : List Nat) : Nat :=
  ((Finset.range h.objects.length).filter (fun i => i ∉ visited)).card

/-- The secondary termination measure of a value: one more than the
rank for a (valid) array reference, `0` otherwise. -/
def valRank (h : Heap) (rank : Nat → Nat) : HVal → Nat
  | .arrRef id => if id < h.arrays.length then rank id + 1 else 0
  | _ => 0

/-- The termination measure of one call of the source recursion: calls
strictly decrease it when the array graph is ranked. -/
def callMeasure (h : Heap) (rank : Nat → Nat) (R : Nat) (visited : List Nat) (v : HVal) : Nat :=
  unvisitedCount h visited * (R + 2) + valRank h rank v + 1

/-! ## Supporting lemmas -/

theorem String.pos_length_ne_empty {s : String} (h : s.length > 0) : s ≠ "" := by
  intro hs
  subst hs
  simp at h

theorem jsIntToString_ne_empty (n : Int) : jsIntToString n ≠ "" := by
  unfold jsIntToString
  split
  · decide
  · split
    · intro h
      have : ('-' :: natDecimalChars n.natAbs) = [] := congrArg String.data h
      simp at this
    · intro h
      rename_i h0 hneg
      have hpos : 0 < n.natAbs := by omega
      obtain ⟨m, hm⟩ : ∃ m, n.natAbs = m + 1 := ⟨n.natAbs - 1, by omega⟩
      rw [hm] at h
      rw [natDecimalChars] at h
      have : (natDecimalChars ((m + 1) / 10) ++ [Char.ofNat (48 + (m + 1) % 10)]) = [] :=
        congrArg String.data h
      simp at this

theorem jsBoolToString_ne_empty (b : Bool) : jsBoolToString b ≠ "" := by
  cases b <;> decide

/-- Every string returned by `extractTextFromUnknown` is non-empty: the
string case trims and tests for positive length; numbers and booleans
stringify to non-empty text; the other cases only propagate. -/
theorem extractText_some_ne_empty (j : Json) :
    ∀ s, extractText j = some s → s ≠ "" := by
  refine extractText.induct
    (fun j => ∀ s, extractText j = some s → s ≠ "")
    (fun fl => ∀ s, extractPairs fl = some s → s ≠ "")
    (fun fl ks => ∀ s, extractKeys fl ks = some s → s ≠ "")
    (fun l => ∀ s, extractList l = some s → s ≠ "")
    ?_ ?_ ?_ ?_ ?_ ?_ ?_ ?_ ?_ ?_ ?_ ?_ ?_ ?_ ?_ ?_ ?_ ?_ ?_ j
  · intro s h
    simp [extractText] at h
  · intro b s h
    simp [extractText] at h
    subst h
    exact jsBoolToString_ne_empty b
  · intro n s h
    simp [extractText] at h
    subst h
    exact jsIntToString_ne_empty n
  · intro s hlen t h
    simp [extractText, hlen] at h
    subst h
    exact String.pos_length_ne_empty hlen
  · intro s hlen t h
    simp [extractText, hlen] at h
  · intro items ih s h
    simp only [extractText] at h
    exact ih s h
  · intro fields s hk ih t h
    simp only [extractText, hk, Option.some.injEq] at h
    subst h
    exact ih s hk
  · intro fields hk s hc ih₁ ih₂ t h
    simp only [extractText, hk, hc, Option.some.injEq] at h
    subst h
    exact ih₂ s hc
  · intro fields hk hc ih₁ ih₂ ih₃ t h
    simp only [extractText, hk, hc] at h
    exact ih₃ t h
  · intro s h
    simp [extractPairs] at h
  · intro k v rest s hv ih t h
    simp only [extractPairs, hv, Option.some.injEq] at h
    subst h
    exact ih s hv
  · intro k v rest hv ih₁ ih₂ t h
    simp only [extractPairs, hv] at h
    exact ih₂ t h
  · intro fields s h
    simp [extractKeys] at h
  · intro fields k rest hl ih s h
    rw [extractKeys_lookup_none fields k rest hl] at h
    exact ih s h
  · intro fields k rest v hl s hv ih t h
    rw [extractKeys_lookup_some fields k rest v hl] at h
    simp only [hv, Option.some.injEq] at h
    subst h
    exact ih s hv
  · intro fields k rest v hl hv ih₁ ih₂ t h
    rw [extractKeys_lookup_some fields k rest v hl] at h
    simp only [hv] at h
    exact ih₂ t h
  · intro s h
    simp [extractList] at h
  · intro j rest s hj ih t h
    simp only [extractList, hj, Option.some.injEq] at h
    subst h
    exact ih s hj
  · intro j rest hj ih₁ ih₂ t h
    simp only [extractList, hj] at h
    exact ih₂ t h

/-- Every string collected by `collectStringsFromUnknown` is non-empty. -/
theorem collectStrings_mem_ne_empty (j : Json) :
    ∀ s ∈ collectStrings j, s ≠ "" := by
  refine collectStrings.induct
    (fun j => ∀ s ∈ collectStrings j, s ≠ "")
    (fun fl => ∀ s ∈ collectPairs fl, s ≠ "")
    (fun l => ∀ s ∈ collectList l, s ≠ "")
    ?_ ?_ ?_ ?_ ?_ ?_ ?_ ?_ ?_ ?_ ?_ j
  · intro s h
    simp [collectStrings] at h
  · intro b s h
    simp [collectStrings] at h
    subst h
    exact jsBoolToString_ne_empty b
  · intro n s h
    simp [collectStrings] at h
    subst h
    exact jsIntToString_ne_empty n
  · intro s hlen t h
    simp [collectStrings, hlen] at h
    subst h
    exact String.pos_length_ne_empty hlen
  · intro s hlen t h
    simp [collectStrings, hlen] at h
  · intro items ih s h
    simp only [collectStrings] at h
    exact ih s h
  · intro fields ih s h
    simp only [collectStrings] at h
    exact ih s h
  · intro s h
    simp [collectList] at h
  · intro j rest ih₁ ih₂ s h
    simp only [collectList, List.mem_append] at h
    rcases h with h | h
    · exact ih₁ s h
    · exact ih₂ s h
  · intro s h
    simp [collectPairs] at h
  · intro k v rest ih₁ ih₂ s h
    simp only [collectPairs, List.mem_append] at h
    rcases h with h | h
    · exact ih₁ s h
    · exact ih₂ s h

theorem joinSpace_length_ge (a : String) (rest : List String) :
    a.length ≤ (joinSpace (a :: rest)).length := by
  rw [joinSpace]
  induction rest generalizing a with
  | nil => simp
  | cons b tl ih =>
    simp only [List.foldl_cons]
    calc a.length ≤ (a ++ " " ++ b).length := by
          simp [String.length_append]
          omega
      _ ≤ _ := ih (a ++ " " ++ b)

theorem jsSlice_ne_empty {s : String} (h : s ≠ "") {n : Nat} (hn : 0 < n) :
    jsSlice s n ≠ "" := by
  intro he
  have hd : (s.toList.take n) = [] := congrArg String.data he
  rcases hs : s.toList with _ | ⟨c, cs⟩
  · apply h
    have : s.data = [] := hs
    cases s
    simp_all
  · rw [hs] at hd
    cases n with
    | zero => omega
    | succ m => simp at hd

/-! ## Claims -/

/-- C1: for a backend answering every POST with HTTP 400 the claim says
`sendMessage` throws after exactly one attempt with the
`INVALID_RESPONSE` sentence.  The code instead *retries*: the
`throw new Error(error.message)` for the non-retryable classification is
intercepted by the `catch` of the same `try`, which re-classifies the
thrown error (no response at hand) as retryable `UNKNOWN`.  With the
default `maxRetries = 3` all three attempts are made (with backoff waits
of 1000ms and 2000ms) and the thrown message is the `UNKNOWN` sentence;
even with `maxRetries = 1` the thrown message is the `UNKNOWN` sentence,
not the `INVALID_RESPONSE` one. -/
theorem C1_http400_is_retried_and_throws_unknown :
    sendMessage 3 1000 (fun _ => .resp ⟨400, true, .null, ""⟩) =
      ⟨.error "An unexpected error occurred. Please try again.", 3, [1000, 2000]⟩ ∧
    sendMessage 1 1000 (fun _ => .resp ⟨400, true, .null, ""⟩) =
      ⟨.error "An unexpected error occurred. Please try again.", 1, []⟩ ∧
    "An unexpected error occurred. Please try again." ≠
      "There was an issue with your request. Please try rephrasing your message." := by
  refine ⟨?_, ?_, by decide⟩ <;> with_unfolding_all rfl

/-- C2 counterexample: the claim quantifies over *every* string under the
top-level `reply` key, but a string whose trim is empty is not returned:
with `reply` bound to `""` the search moves on and returns `"x"` found
under `output`, not `""`. -/
theorem C2_counterexample_empty_reply_string :
    extractText (.obj [("reply", .str ""), ("output", .str "x")]) = some "x" ∧
    ("x" : String) ≠ "" := by
  constructor
  · simp [extractText, extractKeys, extractPairs, lookupField,
      preferredKeys, containerKeys, jsTrim] <;> decide
  · decide

/-- C2 (amended): if the top-level `reply` key holds a string whose trim
is non-empty, `extractText` returns that trimmed string; in general the
object search tries the preferred keys in their fixed priority and
returns the first successful recursive extraction. -/
theorem C2_reply_key_has_first_priority (fields : List (String × Json)) :
    (∀ s, lookupField fields "reply" = some (.str s) → (jsTrim s).length > 0 →
      extractText (.obj fields) = some (jsTrim s)) ∧
    (∀ r, extractKeys fields preferredKeys = some r → extractText (.obj fields) = some r) := by
  have hgen : ∀ r, extractKeys fields preferredKeys = some r →
      extractText (.obj fields) = some r := by
    intro r h
    simp only [extractText, h]
  refine ⟨?_, hgen⟩
  intro s hl hlen
  apply hgen
  have : preferredKeys = "reply" ::
      ["response", "message", "text", "content", "output", "result", "answer"] := rfl
  rw [this, extractKeys_lookup_some fields "reply" _ _ hl]
  simp only [extractText, hlen, if_pos]

/-- C2 witness: a concrete object whose `reply` key holds `"Hello"`
alongside a later-priority `output` key. -/
theorem C2_reply_key_has_first_priority_witness :
    extractText (.obj [("reply", .str "Hello"), ("output", .str "other")]) =
      some (jsTrim "Hello") :=
  (C2_reply_key_has_first_priority _).1 "Hello" rfl (by decide)

/-- C8: a 2xx JSON upstream body of exactly `{"output": null}` extracts
nothing and collects nothing, so the handler replies 200 with the fixed
fallback sentence — never an empty string. -/
theorem C8_output_null_yields_fallback :
    handleJsonBody (.obj [("output", .null)]) =
      (200, .obj [("reply", .str FALLBACK_REPLY)]) ∧ FALLBACK_REPLY ≠ "" := by
  constructor
  · simp [handleJsonBody, extractText, extractKeys, extractPairs, lookupField,
      preferredKeys, containerKeys, collectStrings, collectPairs]
  · decide

/-- C10: a missing, non-string, or short (trimmed length < 8) session id
is not rejected — a freshly generated UUID (36 characters) is substituted
and processing continues; the only rejection this validation emits is
HTTP 400 with code `SESSION_ID_TOO_LONG`, and only for a kept string
session id longer than 100 characters. -/
theorem C10_sessionId_replaced_not_rejected :
    ∀ (v : SessionIdValue) (freshUUID : String), freshUUID.length = 36 →
      ((match v with
        | .str s => (jsTrim s).length < 8
        | _ => True) → resolveSessionId v freshUUID = .ok freshUUID) ∧
      (∀ e, resolveSessionId v freshUUID = .error e →
        e = ⟨400, "Session ID is too long", "SESSION_ID_TOO_LONG"⟩ ∧
        ∃ s, v = .str s ∧ 8 ≤ (jsTrim s).length ∧ s.length > 100) := by
  intro v freshUUID hlen
  cases v with
  | str s =>
    constructor
    · intro hshort
      simp only [resolveSessionId]
      rw [if_pos hshort, if_neg (by omega)]
    · intro e he
      simp only [resolveSessionId] at he
      by_cases hshort : (jsTrim s).length < 8
      · rw [if_pos hshort, if_neg (by omega)] at he
        cases he
      · rw [if_neg hshort] at he
        by_cases hlong : s.length > 100
        · rw [if_pos hlong] at he
          injection he with he
          exact ⟨he.symm, s, rfl, by omega, hlong⟩
        · rw [if_neg hlong] at he
          cases he
  | absent =>
    refine ⟨fun _ => by simp only [resolveSessionId]; rw [if_neg (by omega)], fun e he => ?_⟩
    simp only [resolveSessionId] at he
    rw [if_neg (by omega)] at he
    cases he
  | null =>
    refine ⟨fun _ => by simp only [resolveSessionId]; rw [if_neg (by omega)], fun e he => ?_⟩
    simp only [resolveSessionId] at he
    rw [if_neg (by omega)] at he
    cases he
  | num n =>
    refine ⟨fun _ => by simp only [resolveSessionId]; rw [if_neg (by omega)], fun e he => ?_⟩
    simp only [resolveSessionId] at he
    rw [if_neg (by omega)] at he
    cases he
  | bool b =>
    refine ⟨fun _ => by simp only [resolveSessionId]; rw [if_neg (by omega)], fun e he => ?_⟩
    simp only [resolveSessionId] at he
    rw [if_neg (by omega)] at he
    cases he
  | object =>
    refine ⟨fun _ => by simp only [resolveSessionId]; rw [if_neg (by omega)], fun e he => ?_⟩
    simp only [resolveSessionId] at he
    rw [if_neg (by omega)] at he
    cases he

/-- C10 witness: an absent session id with a 36-character generated UUID
is accepted and replaced, not rejected. -/
theorem C10_sessionId_replaced_not_rejected_witness :
    resolveSessionId .absent "00000000-0000-4000-8000-000000000000" =
      .ok "00000000-0000-4000-8000-000000000000" :=
  (C10_sessionId_replaced_not_rejected .absent _ (by decide)).1 trivial

/-- C7 counterexample: with `NEXT_PUBLIC_CHAT_API_ENDPOINT=/custom` and
`NEXT_PUBLIC_CHAT_TIMEOUT=abc`, the resolved `timeout` is `NaN`
(`parseInt('abc')`), not the default 30000 the claim promises for an
unparsable value; and `healthCheckEndpoint` stays `/api/chat`, not
`apiEndpoint` as the claim states. -/
theorem C7_counterexample_unparsable_timeout :
    (getChatConfig { chatApiEndpoint := some "/custom", chatTimeout := some "abc" }).timeout
        = none ∧
    (getChatConfig { chatApiEndpoint := some "/custom", chatTimeout := some "abc" }).timeout
        ≠ some 30000 ∧
    (getChatConfig { chatApiEndpoint := some "/custom", chatTimeout := some "abc" }).apiEndpoint
        = "/custom" ∧
    (getChatConfig { chatApiEndpoint := some "/custom", chatTimeout := some "abc" }).healthCheckEndpoint
        ≠ "/custom" := by
  refine ⟨?_, ?_, ?_, ?_⟩ <;> decide

/-- C7 (amended): each field is resolved independently of the others; an
absent variable yields the fixed default (`apiEndpoint='/api/chat'`,
`timeout=30000`, `maxRetries=3`, `retryDelay=1000`); a present numeric
variable is `parseInt` of its string, which is `NaN` (not the default)
when the string has no leading integer, so the returned configuration is
not always numerically valid; and `healthCheckEndpoint` is always the
default `'/api/chat'`, regardless of `apiEndpoint`. -/
theorem C7_config_resolution (env : Env) :
    (env.chatApiEndpoint = none → (getChatConfig env).apiEndpoint = "/api/chat") ∧
    (env.chatTimeout = none → (getChatConfig env).timeout = some 30000) ∧
    (env.chatMaxRetries = none → (getChatConfig env).maxRetries = some 3) ∧
    (env.chatRetryDelay = none → (getChatConfig env).retryDelay = some 1000) ∧
    (getChatConfig env).healthCheckEndpoint = "/api/chat" ∧
    (∀ s, env.chatTimeout = some s → s ≠ "" → parseIntJS s = none →
      (getChatConfig env).timeout = none) ∧
    (∀ env' : Env, env.chatTimeout = env'.chatTimeout →
      (getChatConfig env).timeout = (getChatConfig env').timeout) ∧
    (∀ env' : Env, env.chatApiEndpoint = env'.chatApiEndpoint →
      (getChatConfig env).apiEndpoint = (getChatConfig env').apiEndpoint) := by
  refine ⟨?_, ?_, ?_, ?_, rfl, ?_, ?_, ?_⟩
  · intro h
    simp [getChatConfig, jsOrDefault, h]
  · intro h
    simp only [getChatConfig, jsOrDefault, h]
    decide
  · intro h
    simp only [getChatConfig, jsOrDefault, h]
    decide
  · intro h
    simp only [getChatConfig, jsOrDefault, h]
    decide
  · intro s h hne hnan
    simp [getChatConfig, jsOrDefault, h, hne, hnan]
  · intro env' h
    simp [getChatConfig, h]
  · intro env' h
    simp [getChatConfig, h]

/-- C7 witness: the empty environment resolves to all defaults. -/
theorem C7_config_resolution_witness :
    (getChatConfig {}).timeout = some 30000 ∧
    (getChatConfig {}).healthCheckEndpoint = "/api/chat" :=
  ⟨(C7_config_resolution {}).2.1 rfl, (C7_config_resolution {}).2.2.2.2.1⟩

/-- C4: `checkHealth` serves the cache — issuing no request — exactly
when a cache entry younger than 30000ms exists, in which case the cached
result is returned and the cache is unchanged; whenever a probe is
issued (empty or stale cache) the cache is overwritten with the fresh
result — successful or failed — stamped with the current time; from an
empty cache, two calls within 30 seconds issue exactly one request, and
a call 30 or more seconds after the cached timestamp re-probes
regardless of the cached value. -/
theorem C4_checkHealth_cache_discipline :
    ∀ (cache : Option HealthCache) (now : Nat) (probe : ProbeOutcome) (latency : Nat),
      ((checkHealth cache now probe latency).2.2 = false ↔
        ∃ c, cache = some c ∧ now - c.timestamp < 30000) ∧
      (∀ c, cache = some c → now - c.timestamp < 30000 →
        checkHealth cache now probe latency = (c.result, some c, false)) ∧
      ((checkHealth cache now probe latency).2.2 = true →
        checkHealth cache now probe latency =
          (probeResult probe latency, some ⟨probeResult probe latency, now⟩, true)) ∧
      (∀ c, cache = some c → 30000 ≤ now - c.timestamp →
        (checkHealth cache now probe latency).2.2 = true) ∧
      (∀ now₂ probe₂ latency₂, cache = none → now ≤ now₂ → now₂ - now < 30000 →
        (checkHealth cache now probe latency).2.2 = true ∧
        (checkHealth (checkHealth cache now probe latency).2.1 now₂ probe₂ latency₂).2.2
          = false) := by
  intro cache now probe latency
  cases cache with
  | none =>
    refine ⟨?_, ?_, ?_, ?_, ?_⟩
    · simp [checkHealth]
    · intro c hc
      cases hc
    · intro _
      rfl
    · intro c hc
      cases hc
    · intro now₂ probe₂ latency₂ _ h1 h2
      refine ⟨rfl, ?_⟩
      show (checkHealth (some ⟨probeResult probe latency, now⟩) now₂ probe₂ latency₂).2.2 = false
      simp only [checkHealth]
      rw [if_pos (show now₂ - now < HEALTH_CHECK_CACHE_TTL from h2)]
  | some c =>
    by_cases hfresh : now - c.timestamp < 30000
    · have he : checkHealth (some c) now probe latency = (c.result, some c, false) := by
        simp only [checkHealth]
        rw [if_pos (show now - c.timestamp < HEALTH_CHECK_CACHE_TTL from hfresh)]
      refine ⟨?_, ?_, ?_, ?_, ?_⟩
      · simp [he, hfresh]
      · intro c' hc' _
        injection hc' with hc'
        subst hc'
        exact he
      · intro htrue
        rw [he] at htrue
        cases htrue
      · intro c' hc' hstale
        injection hc' with hc'
        subst hc'
        omega
      · intro _ _ _ hnone
        cases hnone
    · have he : checkHealth (some c) now probe latency =
          (probeResult probe latency, some ⟨probeResult probe latency, now⟩, true) := by
        simp only [checkHealth]
        rw [if_neg (show ¬ now - c.timestamp < HEALTH_CHECK_CACHE_TTL from hfresh)]
      refine ⟨?_, ?_, ?_, ?_, ?_⟩
      · simp only [he]
        constructor
        · intro h
          cases h
        · rintro ⟨c', hc', hlt⟩
          injection hc' with hc'
          subst hc'
          omega
      · intro c' hc' hlt
        injection hc' with hc'
        subst hc'
        omega
      · intro _
        exact he
      · intro c' hc' _
        rw [he]
      · intro _ _ _ hnone
        cases hnone

/-- C4 witness: empty cache at time 0, then a second call at 10000ms —
one probe, then a cache hit; and a call at 40000ms re-probes. -/
theorem C4_checkHealth_cache_discipline_witness :
    ((checkHealth none 0 (.resp 200 "OK") 5).2.2 = true ∧
      (checkHealth (checkHealth none 0 (.resp 200 "OK") 5).2.1 10000 (.resp 200 "OK") 7).2.2
        = false) ∧
    (checkHealth (some ⟨⟨true, none, some 5⟩, 0⟩) 40000 (.resp 500 "ERR") 9).2.2 = true :=
  ⟨(C4_checkHealth_cache_discipline none 0 (.resp 200 "OK") 5).2.2.2.2
    10000 (.resp 200 "OK") 7 rfl (by decide) (by decide),
   (C4_checkHealth_cache_discipline (some ⟨⟨true, none, some 5⟩, 0⟩) 40000 (.resp 500 "ERR") 9).2.2.2.1
    ⟨⟨true, none, some 5⟩, 0⟩ rfl (by decide)⟩

/-- The delays waited by the retry loop: starting at `attempt` with the
canonical delay prefix already waited, the final delay list is the
canonical list for the attempts actually made — entry `i` (0-based) is
the wait before attempt `i + 2`, namely
`calculateBackoffDelay (i + 1) retryDelay`. -/
theorem sendLoop_delays_trace (maxRetries retryDelay : Nat) (backend : Nat → FetchOutcome) :
    ∀ (remaining attempt : Nat) (lastError : Option ChatError), 1 ≤ attempt →
      (sendLoop maxRetries retryDelay backend remaining attempt lastError
          ((List.range (attempt - 2)).map
            (fun i => calculateBackoffDelay (i + 1) retryDelay))).delays =
        (List.range ((sendLoop maxRetries retryDelay backend remaining attempt lastError
            ((List.range (attempt - 2)).map
              (fun i => calculateBackoffDelay (i + 1) retryDelay))).attempts - 1)).map
          (fun i => calculateBackoffDelay (i + 1) retryDelay) := by
  intro remaining
  induction remaining with
  | zero =>
    intro attempt lastError h1
    show ((List.range (attempt - 2)).map _) =
      (List.range ((attempt - 1) - 1)).map _
    rw [Nat.sub_sub]
  | succ rem ih =>
    intro attempt lastError h1
    have hstep : (if attempt > 1 then
        ((List.range (attempt - 2)).map
          (fun i => calculateBackoffDelay (i + 1) retryDelay)) ++
          [calculateBackoffDelay (attempt - 1) retryDelay]
      else ((List.range (attempt - 2)).map
          (fun i => calculateBackoffDelay (i + 1) retryDelay))) =
        (List.range (attempt - 1)).map
          (fun i => calculateBackoffDelay (i + 1) retryDelay) := by
      by_cases h2 : attempt > 1
      · rw [if_pos h2]
        have e1 : attempt - 1 = (attempt - 2) + 1 := by omega
        rw [e1, List.range_succ, List.map_append]
        rfl
      · rw [if_neg h2]
        have e0 : attempt = 1 := by omega
        subst e0
        rfl
    have ihnext : ∀ le : Option ChatError,
        (sendLoop maxRetries retryDelay backend rem (attempt + 1) le
            ((List.range (attempt - 1)).map
              (fun i => calculateBackoffDelay (i + 1) retryDelay))).delays =
          (List.range ((sendLoop maxRetries retryDelay backend rem (attempt + 1) le
              ((List.range (attempt - 1)).map
                (fun i => calculateBackoffDelay (i + 1) retryDelay))).attempts - 1)).map
            (fun i => calculateBackoffDelay (i + 1) retryDelay) := by
      intro le
      have := ih (attempt + 1) le (by omega)
      have enext : (attempt + 1) - 2 = attempt - 1 := by omega
      rw [enext] at this
      exact this
    simp only [sendLoop, hstep]
    rcases hb : backend attempt with r | e
    · dsimp only
      by_cases hok : r.okStatus = false
      · rw [if_pos hok]
        by_cases hr : (categorizeError ⟨"Error", "HTTP " ++ jsIntToString r.status⟩
            (some ⟨r.status⟩)).retryable = false
        · rw [if_pos hr]
          by_cases hstop : (categorizeError
              ⟨"Error", (categorizeError ⟨"Error", "HTTP " ++ jsIntToString r.status⟩
                (some ⟨r.status⟩)).message⟩ none).retryable = false ∨ attempt = maxRetries
          · rw [if_pos hstop]
          · rw [if_neg hstop]
            exact ihnext _
        · rw [if_neg hr]
          exact ihnext _
      · rw [if_neg hok]
    · dsimp only
      by_cases hstop : (categorizeError e none).retryable = false ∨ attempt = maxRetries
      · rw [if_pos hstop]
      · rw [if_neg hstop]
        exact ihnext _

/-- C5: `calculateBackoffDelay(attempt, base) = min(base·2^(attempt-1), 10000)`
for `attempt ≥ 1`; it is monotone in `attempt` and never exceeds 10000
for any `attempt` and `base`; and the waits of `sendMessage` before
attempts `2, 3, …` are exactly `min(retryBaseDelay·2^(attempt-2), 10000)`
— entry `i` of the delay list is the wait before attempt `i + 2`. -/
theorem C5_backoff_formula_monotone_capped :
    (∀ attempt base, 1 ≤ attempt →
      calculateBackoffDelay attempt base = min (base * 2 ^ (attempt - 1)) 10000) ∧
    (∀ attempt base, calculateBackoffDelay attempt base ≤ 10000) ∧
    (∀ a₁ a₂ base, a₁ ≤ a₂ →
      calculateBackoffDelay a₁ base ≤ calculateBackoffDelay a₂ base) ∧
    (∀ maxRetries retryDelay backend,
      (sendMessage maxRetries retryDelay backend).delays =
        (List.range ((sendMessage maxRetries retryDelay backend).attempts - 1)).map
          (fun i => min (retryDelay * 2 ^ i) 10000)) := by
  refine ⟨fun _ _ _ => rfl, fun attempt base => Nat.min_le_right _ _, ?_, ?_⟩
  · intro a₁ a₂ base h
    exact min_le_min
      (Nat.mul_le_mul_left base (Nat.pow_le_pow_right (by omega) (by omega)))
      (Nat.le_refl _)
  · intro maxRetries retryDelay backend
    have := sendLoop_delays_trace maxRetries retryDelay backend maxRetries 1 none (by omega)
    simpa [sendMessage, calculateBackoffDelay] using this

/-- C5 witness: the formula and the cap at a concrete attempt, and
monotonicity between attempts 2 and 3. -/
theorem C5_backoff_formula_monotone_capped_witness :
    calculateBackoffDelay 2 1000 = min (1000 * 2 ^ 1) 10000 ∧
    calculateBackoffDelay 2 1000 ≤ calculateBackoffDelay 3 1000 :=
  ⟨C5_backoff_formula_monotone_capped.1 2 1000 (by decide),
   C5_backoff_formula_monotone_capped.2.2.1 2 3 1000 (by decide)⟩

/-- The third call's parsed body in the C6 scenario. -/
def thirdBody : Json := .obj [("reply", .str "Hello from the workflow")]

/-- A backend that answers HTTP 503 on the first two POSTs and HTTP 200
with a JSON body on the third. -/
def backend503TwiceThen200 : Nat → FetchOutcome := fun attempt =>
  if attempt < 3 then .resp ⟨503, true, .null, ""⟩
  else .resp ⟨200, true, thirdBody, "raw"⟩

/-- C6 counterexample: with `retryBaseDelay = 20000` the two backoff
waits are both capped at 10000ms, so the total suspension 20000ms is
*less* than `base + base·2 = 60000ms` — the claimed lower bound fails
(the claim ignores the 10-second ceiling).  `sendMessage` does still
succeed with the third call's body. -/
theorem C6_counterexample_cap_beats_lower_bound :
    sendMessage 3 20000 backend503TwiceThen200 =
      ⟨.ok thirdBody, 3, [10000, 10000]⟩ ∧
    10000 + 10000 < 20000 + 20000 * 2 := by
  refine ⟨?_, by decide⟩
  have c503 : categorizeError ⟨"Error", "HTTP " ++ jsIntToString 503⟩ (some ⟨503⟩) =
      ⟨.SERVICE_UNAVAILABLE,
       "The chat service is temporarily unavailable. Please try again in a few moments.",
       none, true, some 503⟩ := by
    set_option maxRecDepth 4000 in with_unfolding_all rfl
  have e1 : backend503TwiceThen200 1 = .resp ⟨503, true, .null, ""⟩ := rfl
  have e2 : backend503TwiceThen200 2 = .resp ⟨503, true, .null, ""⟩ := rfl
  have e3 : backend503TwiceThen200 3 = .resp ⟨200, true, thirdBody, "raw"⟩ := rfl
  simp only [sendMessage, sendLoop, e1, e2, e3]
  norm_num [FetchResponse.okStatus, calculateBackoffDelay, c503]

/-- C6 (amended): with `maxRetries = 3` and a backend returning 503,
503, then 200, `sendMessage` succeeds and returns the third call's
parsed body after exactly three attempts; the two backoff waits are
exactly `min(base, 10000)` and `min(base·2, 10000)`, so the total
suspension is at least `base + base·2` whenever `base ≤ 5000` (the
un-capped regime) but is capped for larger bases. -/
theorem C6_two_503_then_200_succeeds (base : Nat) :
    sendMessage 3 base backend503TwiceThen200 =
      ⟨.ok thirdBody, 3, [min base 10000, min (base * 2) 10000]⟩ ∧
    (base ≤ 5000 → base + base * 2 ≤ min base 10000 + min (base * 2) 10000) := by
  constructor
  · have c503 : categorizeError ⟨"Error", "HTTP " ++ jsIntToString 503⟩ (some ⟨503⟩) =
        ⟨.SERVICE_UNAVAILABLE,
         "The chat service is temporarily unavailable. Please try again in a few moments.",
         none, true, some 503⟩ := by
      set_option maxRecDepth 4000 in with_unfolding_all rfl
    have e1 : backend503TwiceThen200 1 = .resp ⟨503, true, .null, ""⟩ := rfl
    have e2 : backend503TwiceThen200 2 = .resp ⟨503, true, .null, ""⟩ := rfl
    have e3 : backend503TwiceThen200 3 = .resp ⟨200, true, thirdBody, "raw"⟩ := rfl
    simp only [sendMessage, sendLoop, e1, e2, e3]
    norm_num [FetchResponse.okStatus, calculateBackoffDelay, c503]
  · intro h
    have h1 : min base 10000 = base := by omega
    have h2 : min (base * 2) 10000 = base * 2 := by omega
    omega

/-- C6 witness: at the default `base = 1000` the waits are 1000ms and
2000ms and the lower bound `base + base·2 = 3000ms` holds. -/
theorem C6_two_503_then_200_succeeds_witness :
    (sendMessage 3 1000 backend503TwiceThen200 =
      ⟨.ok thirdBody, 3, [min 1000 10000, min (1000 * 2) 10000]⟩) ∧
    1000 + 1000 * 2 ≤ min 1000 10000 + min (1000 * 2) 10000 :=
  ⟨(C6_two_503_then_200_succeeds 1000).1,
   (C6_two_503_then_200_succeeds 1000).2 (by decide)⟩

theorem String.ne_empty_pos {s : String} (h : s ≠ "") : 0 < s.length := by
  cases s with
  | mk data =>
    cases data with
    | nil => exact absurd rfl h
    | cons c cs => simp [String.length]

/-- C9: whenever the upstream answers 2xx with a JSON content type, the
proxy responds 200 with a body of exactly the shape `{reply: s}` for a
non-empty string `s` — the extracted text, or the collected leaf strings
joined with single spaces and sliced to 4000 characters, or the fixed
fallback sentence; the raw webhook JSON is never forwarded on this
path. -/
theorem C9_json_success_reply_shape (u : Upstream) (hok : u.okStatus = true)
    (hjson : u.contentTypeJson = true) :
    ∃ s, handleUpstream u = .jsonResp 200 (.obj [("reply", .str s)]) ∧ s ≠ "" ∧
      (extractText u.bodyJson = some s ∨
       (extractText u.bodyJson = none ∧ collectStrings u.bodyJson ≠ [] ∧
         s = jsSlice (joinSpace (collectStrings u.bodyJson)) 4000) ∨
       (extractText u.bodyJson = none ∧ collectStrings u.bodyJson = [] ∧
         s = FALLBACK_REPLY)) := by
  have hroute : handleUpstream u =
      (let p := handleJsonBody u.bodyJson; RouteResponse.jsonResp p.1 p.2) := by
    simp only [handleUpstream, hok, hjson]
    rfl
  rcases hx : extractText u.bodyJson with _ | s
  · rcases hc : collectStrings u.bodyJson with _ | ⟨a, rest⟩
    · refine ⟨FALLBACK_REPLY, ?_, by decide, .inr (.inr ⟨rfl, rfl, rfl⟩)⟩
      rw [hroute]
      simp only [handleJsonBody, hx, hc]
      rfl
    · refine ⟨jsSlice (joinSpace (a :: rest)) 4000, ?_, ?_, ?_⟩
      · rw [hroute]
        simp [handleJsonBody, hx, hc]
      · have ha : a ≠ "" := by
          apply collectStrings_mem_ne_empty u.bodyJson
          rw [hc]
          exact List.mem_cons_self a rest
        have hj : joinSpace (a :: rest) ≠ "" := by
          intro hcon
          have h1 := joinSpace_length_ge a rest
          rw [hcon] at h1
          have h2 := String.ne_empty_pos ha
          have h0 : ("" : String).length = 0 := rfl
          omega
        exact jsSlice_ne_empty hj (by omega)
      · exact .inr (.inl ⟨rfl, by simp, rfl⟩)
  · refine ⟨s, ?_, extractText_some_ne_empty u.bodyJson s hx, .inl rfl⟩
    rw [hroute]
    simp only [handleJsonBody, hx]

/-- C9 witness: a concrete 200 JSON upstream response. -/
theorem C9_json_success_reply_shape_witness :
    ∃ s, handleUpstream ⟨200, true, .obj [("reply", .str "Hi")], ""⟩ =
        .jsonResp 200 (.obj [("reply", .str s)]) ∧ s ≠ "" ∧
      (extractText (Json.obj [("reply", .str "Hi")]) = some s ∨
       (extractText (Json.obj [("reply", .str "Hi")]) = none ∧
         collectStrings (Json.obj [("reply", .str "Hi")]) ≠ [] ∧
         s = jsSlice (joinSpace (collectStrings (Json.obj [("reply", .str "Hi")]))) 4000) ∨
       (extractText (Json.obj [("reply", .str "Hi")]) = none ∧
         collectStrings (Json.obj [("reply", .str "Hi")]) = [] ∧
         s = FALLBACK_REPLY)) :=
  C9_json_success_reply_shape ⟨200, true, .obj [("reply", .str "Hi")], ""⟩ rfl rfl

/-- C3 counterexample: the claim asserts termination for cycles through
arrays as well, but the source adds only plain objects to the visited
set — on `const a = []; a.push(a)` (a cycle passing only through an
array) both `extractTextFromUnknown` and `collectStringsFromUnknown`
recurse forever: no fuel suffices. -/
theorem C3_counterexample_self_array :
    extractDiverges selfArrayHeap (.arrRef 0) ∧
    collectDiverges selfArrayHeap (.arrRef 0) := by
  constructor
  · intro fuel
    induction fuel with
    | zero => simp [extractH]
    | succ f ih =>
      simp only [selfArrayHeap] at ih
      simp [extractH, extractHList, selfArrayHeap, ih]
  · intro fuel
    induction fuel with
    | zero => simp [collectH]
    | succ f ih =>
      simp only [selfArrayHeap] at ih
      simp [collectH, collectHList, selfArrayHeap, ih]

theorem unvisitedCount_le_of_subset (h : Heap) {V V' : List Nat} (hsub : V ⊆ V') :
    unvisitedCount h V' ≤ unvisitedCount h V := by
  apply Finset.card_le_card
  intro i hi
  simp only [Finset.mem_filter, Finset.mem_range] at hi ⊢
  exact ⟨hi.1, fun hmem => hi.2 (hsub hmem)⟩

theorem unvisitedCount_lt_append (h : Heap) {V : List Nat} {id : Nat}
    (hlt : id < h.objects.length) (hmem : id ∉ V) :
    unvisitedCount h (V ++ [id]) < unvisitedCount h V := by
  apply Finset.card_lt_card
  rw [Finset.ssubset_iff_of_subset]
  · refine ⟨id, ?_, ?_⟩
    · simp only [Finset.mem_filter, Finset.mem_range]
      exact ⟨hlt, hmem⟩
    · simp only [Finset.mem_filter, Finset.mem_range, List.mem_append]
      intro hcon
      exact hcon.2 (Or.inr (List.mem_singleton_self id))
  · intro i hi
    simp only [Finset.mem_filter, Finset.mem_range, List.mem_append] at hi ⊢
    exact ⟨hi.1, fun hmem => hi.2 (Or.inl hmem)⟩

/-- The secondary measure of any value is bounded by `R` when the array
ranks are. -/
theorem valRank_le (h : Heap) (rank : Nat → Nat) (R : Nat)
    (hR : ∀ id, id < h.arrays.length → rank id < R) (v : HVal) :
    valRank h rank v ≤ R := by
  cases v with
  | arrRef id =>
    by_cases hid : id < h.arrays.length
    · simp only [valRank, if_pos hid]
      exact hR id hid
    · simp only [valRank, if_neg hid]
      omega
  | null => simp [valRank]
  | bool b => simp [valRank]
  | num n => simp [valRank]
  | str s => simp [valRank]
  | objRef id => simp [valRank]

theorem callMeasure_mono (h : Heap) (rank : Nat → Nat) (R : Nat) {V V' : List Nat}
    (hsub : V ⊆ V') (v : HVal) :
    callMeasure h rank R V' v ≤ callMeasure h rank R V v := by
  unfold callMeasure
  have := unvisitedCount_le_of_subset h hsub
  have hm : unvisitedCount h V' * (R + 2) ≤ unvisitedCount h V * (R + 2) :=
    Nat.mul_le_mul_right _ this
  omega

theorem nodup_append_id {V : List Nat} {id : Nat} (hnd : V.Nodup) (hid : id ∉ V) :
    (V ++ [id]).Nodup := by
  simp [List.nodup_append, hnd, hid]

/-- Growth of the visited list, list helper, given growth of `extractH`
at the same fuel. -/
theorem extractHList_growth_of (h : Heap) (fuel : Nat)
    (hH : ∀ v visited r visited', extractH h fuel v visited = some (r, visited') →
      visited <+: visited' ∧ (visited.Nodup → visited'.Nodup)) :
    ∀ items visited r visited', extractHList h fuel items visited = some (r, visited') →
      visited <+: visited' ∧ (visited.Nodup → visited'.Nodup) := by
  intro items
  induction items with
  | nil =>
    intro visited r visited' he
    simp only [extractHList, Option.some.injEq, Prod.mk.injEq] at he
    obtain ⟨-, rfl⟩ := he
    exact ⟨List.prefix_refl _, id⟩
  | cons a rest ih =>
    intro visited r visited' he
    simp only [extractHList] at he
    rcases hv : extractH h fuel a visited with _ | ⟨res, V₁⟩
    · rw [hv] at he
      simp at he
    · rw [hv] at he
      try dsimp only at he
      have h₁ := hH a visited res V₁ hv
      cases res with
      | some s =>
        try dsimp only at he
        simp only [Option.some.injEq, Prod.mk.injEq] at he
        obtain ⟨-, rfl⟩ := he
        exact h₁
      | none =>
        try dsimp only at he
        have h₂ := ih V₁ r visited' he
        exact ⟨h₁.1.trans h₂.1, fun hnd => h₂.2 (h₁.2 hnd)⟩

/-- Growth of the visited list, key helper. -/
theorem extractHKeys_growth_of (h : Heap) (fuel : Nat)
    (hH : ∀ v visited r visited', extractH h fuel v visited = some (r, visited') →
      visited <+: visited' ∧ (visited.Nodup → visited'.Nodup)) (fields : List (String × HVal)) :
    ∀ ks visited r visited', extractHKeys h fuel fields ks visited = some (r, visited') →
      visited <+: visited' ∧ (visited.Nodup → visited'.Nodup) := by
  intro ks
  induction ks with
  | nil =>
    intro visited r visited' he
    simp only [extractHKeys, Option.some.injEq, Prod.mk.injEq] at he
    obtain ⟨-, rfl⟩ := he
    exact ⟨List.prefix_refl _, id⟩
  | cons k rest ih =>
    intro visited r visited' he
    simp only [extractHKeys] at he
    rcases hl : lookupField fields k with _ | v
    · rw [hl] at he
      try dsimp only at he
      exact ih visited r visited' he
    · rw [hl] at he
      try dsimp only at he
      rcases hv : extractH h fuel v visited with _ | ⟨res, V₁⟩
      · rw [hv] at he
        simp at he
      · rw [hv] at he
        try dsimp only at he
        have h₁ := hH v visited res V₁ hv
        cases res with
        | some s =>
          try dsimp only at he
          simp only [Option.some.injEq, Prod.mk.injEq] at he
          obtain ⟨-, rfl⟩ := he
          exact h₁
        | none =>
          try dsimp only at he
          have h₂ := ih V₁ r visited' he
          exact ⟨h₁.1.trans h₂.1, fun hnd => h₂.2 (h₁.2 hnd)⟩

/-- Growth of the visited list, object-values helper. -/
theorem extractHPairs_growth_of (h : Heap) (fuel : Nat)
    (hH : ∀ v visited r visited', extractH h fuel v visited = some (r, visited') →
      visited <+: visited' ∧ (visited.Nodup → visited'.Nodup)) :
    ∀ pairs visited r visited', extractHPairs h fuel pairs visited = some (r, visited') →
      visited <+: visited' ∧ (visited.Nodup → visited'.Nodup) := by
  intro pairs
  induction pairs with
  | nil =>
    intro visited r visited' he
    simp only [extractHPairs, Option.some.injEq, Prod.mk.injEq] at he
    obtain ⟨-, rfl⟩ := he
    exact ⟨List.prefix_refl _, id⟩
  | cons p rest ih =>
    obtain ⟨k, v⟩ := p
    intro visited r visited' he
    simp only [extractHPairs] at he
    rcases hv : extractH h fuel v visited with _ | ⟨res, V₁⟩
    · rw [hv] at he
      simp at he
    · rw [hv] at he
      try dsimp only at he
      have h₁ := hH v visited res V₁ hv
      cases res with
      | some s =>
        try dsimp only at he
        simp only [Option.some.injEq, Prod.mk.injEq] at he
        obtain ⟨-, rfl⟩ := he
        exact h₁
      | none =>
        try dsimp only at he
        have h₂ := ih V₁ r visited' he
        exact ⟨h₁.1.trans h₂.1, fun hnd => h₂.2 (h₁.2 hnd)⟩

/-- The visited list only grows (as a prefix), and it stays duplicate
free: an object id is appended only when it is not yet present. -/
theorem extractH_growth (h : Heap) :
    ∀ fuel v visited r visited', extractH h fuel v visited = some (r, visited') →
      visited <+: visited' ∧ (visited.Nodup → visited'.Nodup) := by
  intro fuel
  induction fuel with
  | zero =>
    intro v visited r visited' he
    simp [extractH] at he
  | succ f ihf =>
    intro v visited r visited' he
    rcases v with _ | b | n | s | aid | oid
    · simp only [extractH, Option.some.injEq, Prod.mk.injEq] at he
      obtain ⟨-, rfl⟩ := he
      exact ⟨List.prefix_refl _, id⟩
    · simp only [extractH, Option.some.injEq, Prod.mk.injEq] at he
      obtain ⟨-, rfl⟩ := he
      exact ⟨List.prefix_refl _, id⟩
    · simp only [extractH, Option.some.injEq, Prod.mk.injEq] at he
      obtain ⟨-, rfl⟩ := he
      exact ⟨List.prefix_refl _, id⟩
    · simp only [extractH, Option.some.injEq, Prod.mk.injEq] at he
      obtain ⟨-, rfl⟩ := he
      exact ⟨List.prefix_refl _, id⟩
    · simp only [extractH] at he
      rcases harr : h.arrays[aid]? with _ | items
      · rw [harr] at he
        try dsimp only at he
        try dsimp only at he
        simp only [Option.some.injEq, Prod.mk.injEq] at he
        obtain ⟨-, rfl⟩ := he
        exact ⟨List.prefix_refl _, id⟩
      · rw [harr] at he
        try dsimp only at he
        exact extractHList_growth_of h f ihf items visited r visited' he
    · simp only [extractH] at he
      by_cases hid : oid ∈ visited
      · rw [if_pos hid] at he
        try dsimp only at he
        simp only [Option.some.injEq, Prod.mk.injEq] at he
        obtain ⟨-, rfl⟩ := he
        exact ⟨List.prefix_refl _, id⟩
      · rw [if_neg hid] at he
        rcases hobj : h.objects[oid]? with _ | fields
        · rw [hobj] at he
          try dsimp only at he
          try dsimp only at he
          simp only [Option.some.injEq, Prod.mk.injEq] at he
          obtain ⟨-, rfl⟩ := he
          exact ⟨List.prefix_refl _, id⟩
        · rw [hobj] at he
          try dsimp only at he
          have hbase : visited <+: visited ++ [oid] := List.prefix_append _ _
          have hbnd : visited.Nodup → (visited ++ [oid]).Nodup :=
            fun hnd => nodup_append_id hnd hid
          rcases hk1 : extractHKeys h f fields preferredKeys (visited ++ [oid]) with _ | ⟨or1, V₁⟩
          · rw [hk1] at he
            simp at he
          · rw [hk1] at he
            try dsimp only at he
            have g1 := extractHKeys_growth_of h f ihf fields preferredKeys
              (visited ++ [oid]) or1 V₁ hk1
            cases or1 with
            | some s =>
              try dsimp only at he
              simp only [Option.some.injEq, Prod.mk.injEq] at he
              obtain ⟨-, rfl⟩ := he
              exact ⟨hbase.trans g1.1, fun hnd => g1.2 (hbnd hnd)⟩
            | none =>
              try dsimp only at he
              rcases hk2 : extractHKeys h f fields containerKeys V₁ with _ | ⟨or2, V₂⟩
              · rw [hk2] at he
                simp at he
              · rw [hk2] at he
                try dsimp only at he
                have g2 := extractHKeys_growth_of h f ihf fields containerKeys V₁ or2 V₂ hk2
                cases or2 with
                | some s =>
                  try dsimp only at he
                  simp only [Option.some.injEq, Prod.mk.injEq] at he
                  obtain ⟨-, rfl⟩ := he
                  exact ⟨(hbase.trans g1.1).trans g2.1,
                    fun hnd => g2.2 (g1.2 (hbnd hnd))⟩
                | none =>
                  try dsimp only at he
                  have g3 := extractHPairs_growth_of h f ihf fields V₂ r visited' he
                  exact ⟨((hbase.trans g1.1).trans g2.1).trans g3.1,
                    fun hnd => g3.2 (g2.2 (g1.2 (hbnd hnd)))⟩

theorem lookupField_mem {α : Type} (fields : List (String × α)) (k : String) (v : α)
    (h : lookupField fields k = some v) : (k, v) ∈ fields := by
  induction fields with
  | nil => simp [lookupField] at h
  | cons p rest ih =>
    obtain ⟨k₀, v₀⟩ := p
    by_cases hk : k₀ = k
    · simp only [lookupField, if_pos hk, Option.some.injEq] at h
      subst hk
      subst h
      exact List.mem_cons_self _ _
    · simp only [lookupField, if_neg hk] at h
      exact List.mem_cons_of_mem _ (ih h)

theorem getElem?_lt_length {α : Type} {l : List α} {n : Nat} {a : α}
    (h : l[n]? = some a) : n < l.length := by
  by_contra hn
  push_neg at hn
  rw [List.getElem?_eq_none hn] at h
  cases h

/-- Fuel sufficiency for the array loop, given sufficiency of `extractH`
at the same fuel. -/
theorem extractHList_suff (h : Heap) (rank : Nat → Nat) (R : Nat) (fuel : Nat)
    (hH : ∀ v visited, callMeasure h rank R visited v ≤ fuel →
      (extractH h fuel v visited).isSome) :
    ∀ items visited, (∀ v ∈ items, callMeasure h rank R visited v ≤ fuel) →
      (extractHList h fuel items visited).isSome := by
  intro items
  induction items with
  | nil =>
    intro visited _
    simp [extractHList]
  | cons a rest ih =>
    intro visited hm
    have h1 := hH a visited (hm a (List.mem_cons_self a rest))
    rcases hv : extractH h fuel a visited with _ | ⟨res, V₁⟩
    · rw [hv] at h1
      cases h1
    · simp only [extractHList]
      rw [hv]
      cases res with
      | some s => simp
      | none =>
        try dsimp only
        apply ih V₁
        intro w hw
        have hpre := (extractH_growth h fuel a visited _ _ hv).1
        exact le_trans (callMeasure_mono h rank R hpre.subset w)
          (hm w (List.mem_cons_of_mem _ hw))

/-- Fuel sufficiency for the key loops. -/
theorem extractHKeys_suff (h : Heap) (rank : Nat → Nat) (R : Nat) (fuel : Nat)
    (hH : ∀ v visited, callMeasure h rank R visited v ≤ fuel →
      (extractH h fuel v visited).isSome) (fields : List (String × HVal)) :
    ∀ ks visited, (∀ p ∈ fields, callMeasure h rank R visited p.2 ≤ fuel) →
      (extractHKeys h fuel fields ks visited).isSome := by
  intro ks
  induction ks with
  | nil =>
    intro visited _
    simp [extractHKeys]
  | cons k rest ih =>
    intro visited hm
    simp only [extractHKeys]
    rcases hl : lookupField fields k with _ | v
    · try dsimp only
      exact ih visited hm
    · try dsimp only
      have hvm : callMeasure h rank R visited v ≤ fuel :=
        hm (k, v) (lookupField_mem fields k v hl)
      have h1 := hH v visited hvm
      rcases hv : extractH h fuel v visited with _ | ⟨res, V₁⟩
      · rw [hv] at h1
        cases h1
      · cases res with
        | some s => simp
        | none =>
          try dsimp only
          apply ih V₁
          intro p hp
          have hpre := (extractH_growth h fuel v visited _ _ hv).1
          exact le_trans (callMeasure_mono h rank R hpre.subset p.2) (hm p hp)

/-- Fuel sufficiency for the object-values loop. -/
theorem extractHPairs_suff (h : Heap) (rank : Nat → Nat) (R : Nat) (fuel : Nat)
    (hH : ∀ v visited, callMeasure h rank R visited v ≤ fuel →
      (extractH h fuel v visited).isSome) :
    ∀ pairs visited, (∀ p ∈ pairs, callMeasure h rank R visited p.2 ≤ fuel) →
      (extractHPairs h fuel pairs visited).isSome := by
  intro pairs
  induction pairs with
  | nil =>
    intro visited _
    simp [extractHPairs]
  | cons p rest ih =>
    obtain ⟨k, v⟩ := p
    intro visited hm
    have h1 := hH v visited (hm (k, v) (List.mem_cons_self _ _))
    rcases hv : extractH h fuel v visited with _ | ⟨res, V₁⟩
    · rw [hv] at h1
      cases h1
    · simp only [extractHPairs]
      rw [hv]
      cases res with
      | some s => simp
      | none =>
        try dsimp only
        apply ih V₁
        intro q hq
        have hpre := (extractH_growth h fuel v visited _ _ hv).1
        exact le_trans (callMeasure_mono h rank R hpre.subset q.2)
          (hm q (List.mem_cons_of_mem _ hq))

/-- Fuel sufficiency for `extractH`: when the direct array-to-array
reference graph is ranked (every cycle passes through an object), any
fuel of at least the call measure suffices — the source recursion
terminates. -/
theorem extractH_suff (h : Heap) (rank : Nat → Nat) (R : Nat)
    (hR : ∀ id, id < h.arrays.length → rank id < R)
    (hdec : ∀ id items, h.arrays[id]? = some items →
      ∀ id2, HVal.arrRef id2 ∈ items → id2 < h.arrays.length → rank id2 < rank id) :
    ∀ fuel v visited, callMeasure h rank R visited v ≤ fuel →
      (extractH h fuel v visited).isSome := by
  intro fuel
  induction fuel with
  | zero =>
    intro v visited hm
    unfold callMeasure at hm
    omega
  | succ f ihf =>
    intro v visited hm
    rcases v with _ | b | n | s | aid | oid
    · simp [extractH]
    · simp [extractH]
    · simp [extractH]
    · simp [extractH]
    · simp only [extractH]
      rcases harr : h.arrays[aid]? with _ | items
      · simp
      · try dsimp only
        have hvalid : aid < h.arrays.length := getElem?_lt_length harr
        apply extractHList_suff h rank R f ihf items visited
        intro w hw
        unfold callMeasure at hm ⊢
        have hva : valRank h rank (.arrRef aid) = rank aid + 1 := by
          simp [valRank, hvalid]
        rw [hva] at hm
        have hwle : valRank h rank w ≤ rank aid := by
          cases w with
          | arrRef id2 =>
            by_cases hv2 : id2 < h.arrays.length
            · simp only [valRank, if_pos hv2]
              exact hdec aid items harr id2 hw hv2
            · simp only [valRank, if_neg hv2]
              omega
          | null => simp [valRank]
          | bool b => simp [valRank]
          | num n => simp [valRank]
          | str s => simp [valRank]
          | objRef id2 => simp [valRank]
        omega
    · simp only [extractH]
      by_cases hid : oid ∈ visited
      · rw [if_pos hid]
        simp
      · rw [if_neg hid]
        rcases hobj : h.objects[oid]? with _ | fields
        · simp
        · try dsimp only
          have hvalid : oid < h.objects.length := getElem?_lt_length hobj
          have hUpos : 1 ≤ unvisitedCount h visited := by
            apply Finset.card_pos.mpr
            exact ⟨oid, by
              simp only [Finset.mem_filter, Finset.mem_range]
              exact ⟨hvalid, hid⟩⟩
          have hUdec := unvisitedCount_lt_append h hvalid hid
          have hmX : unvisitedCount h visited * (R + 2) + 1 ≤ f + 1 := by
            unfold callMeasure at hm
            have : valRank h rank (.objRef oid) = 0 := by simp [valRank]
            omega
          have hmul : (unvisitedCount h (visited ++ [oid]) + 1) * (R + 2) ≤
              unvisitedCount h visited * (R + 2) :=
            Nat.mul_le_mul_right _ hUdec
          have hfields : ∀ p ∈ fields, callMeasure h rank R (visited ++ [oid]) p.2 ≤ f := by
            intro p _
            unfold callMeasure
            have hvr := valRank_le h rank R hR p.2
            have hx : (unvisitedCount h (visited ++ [oid]) + 1) * (R + 2) =
                unvisitedCount h (visited ++ [oid]) * (R + 2) + (R + 2) := by ring
            omega
          have hk1some := extractHKeys_suff h rank R f ihf fields preferredKeys
            (visited ++ [oid]) hfields
          rcases hk1 : extractHKeys h f fields preferredKeys (visited ++ [oid])
            with _ | ⟨or1, V₁⟩
          · rw [hk1] at hk1some
            cases hk1some
          · have g1 := (extractHKeys_growth_of h f (extractH_growth h f) fields
              preferredKeys (visited ++ [oid]) or1 V₁ hk1).1
            cases or1 with
            | some s => simp
            | none =>
              try dsimp only
              have hfields₁ : ∀ p ∈ fields, callMeasure h rank R V₁ p.2 ≤ f := by
                intro p hp
                exact le_trans (callMeasure_mono h rank R g1.subset p.2) (hfields p hp)
              have hk2some := extractHKeys_suff h rank R f ihf fields containerKeys
                V₁ hfields₁
              rcases hk2 : extractHKeys h f fields containerKeys V₁ with _ | ⟨or2, V₂⟩
              · rw [hk2] at hk2some
                cases hk2some
              · have g2 := (extractHKeys_growth_of h f (extractH_growth h f) fields
                  containerKeys V₁ or2 V₂ hk2).1
                cases or2 with
                | some s => simp
                | none =>
                  try dsimp only
                  apply extractHPairs_suff h rank R f ihf fields V₂
                  intro p hp
                  exact le_trans (callMeasure_mono h rank R g2.subset p.2) (hfields₁ p hp)

/-- Growth of the visited list for the collector, list helper. -/
theorem collectHList_growth_of (h : Heap) (fuel : Nat)
    (hH : ∀ v out visited out' visited',
      collectH h fuel v out visited = some (out', visited') →
      visited <+: visited' ∧ (visited.Nodup → visited'.Nodup)) :
    ∀ items out visited out' visited',
      collectHList h fuel items out visited = some (out', visited') →
      visited <+: visited' ∧ (visited.Nodup → visited'.Nodup) := by
  intro items
  induction items with
  | nil =>
    intro out visited out' visited' he
    simp only [collectHList, Option.some.injEq, Prod.mk.injEq] at he
    obtain ⟨-, rfl⟩ := he
    exact ⟨List.prefix_refl _, id⟩
  | cons a rest ih =>
    intro out visited out' visited' he
    simp only [collectHList] at he
    rcases hv : collectH h fuel a out visited with _ | ⟨out₁, V₁⟩
    · rw [hv] at he
      simp at he
    · rw [hv] at he
      try dsimp only at he
      have h₁ := hH a out visited out₁ V₁ hv
      have h₂ := ih out₁ V₁ out' visited' he
      exact ⟨h₁.1.trans h₂.1, fun hnd => h₂.2 (h₁.2 hnd)⟩

/-- Growth of the visited list for the collector, object-values helper. -/
theorem collectHPairs_growth_of (h : Heap) (fuel : Nat)
    (hH : ∀ v out visited out' visited',
      collectH h fuel v out visited = some (out', visited') →
      visited <+: visited' ∧ (visited.Nodup → visited'.Nodup)) :
    ∀ pairs out visited out' visited',
      collectHPairs h fuel pairs out visited = some (out', visited') →
      visited <+: visited' ∧ (visited.Nodup → visited'.Nodup) := by
  intro pairs
  induction pairs with
  | nil =>
    intro out visited out' visited' he
    simp only [collectHPairs, Option.some.injEq, Prod.mk.injEq] at he
    obtain ⟨-, rfl⟩ := he
    exact ⟨List.prefix_refl _, id⟩
  | cons p rest ih =>
    obtain ⟨k, v⟩ := p
    intro out visited out' visited' he
    simp only [collectHPairs] at he
    rcases hv : collectH h fuel v out visited with _ | ⟨out₁, V₁⟩
    · rw [hv] at he
      simp at he
    · rw [hv] at he
      try dsimp only at he
      have h₁ := hH v out visited out₁ V₁ hv
      have h₂ := ih out₁ V₁ out' visited' he
      exact ⟨h₁.1.trans h₂.1, fun hnd => h₂.2 (h₁.2 hnd)⟩

/-- The collector's visited list only grows (as a prefix) and stays
duplicate free. -/
theorem collectH_growth (h : Heap) :
    ∀ fuel v out visited out' visited',
      collectH h fuel v out visited = some (out', visited') →
      visited <+: visited' ∧ (visited.Nodup → visited'.Nodup) := by
  intro fuel
  induction fuel with
  | zero =>
    intro v out visited out' visited' he
    simp [collectH] at he
  | succ f ihf =>
    intro v out visited out' visited' he
    rcases v with _ | b | n | s | aid | oid
    · simp only [collectH, Option.some.injEq, Prod.mk.injEq] at he
      obtain ⟨-, rfl⟩ := he
      exact ⟨List.prefix_refl _, id⟩
    · simp only [collectH, Option.some.injEq, Prod.mk.injEq] at he
      obtain ⟨-, rfl⟩ := he
      exact ⟨List.prefix_refl _, id⟩
    · simp only [collectH, Option.some.injEq, Prod.mk.injEq] at he
      obtain ⟨-, rfl⟩ := he
      exact ⟨List.prefix_refl _, id⟩
    · simp only [collectH, Option.some.injEq, Prod.mk.injEq] at he
      obtain ⟨-, rfl⟩ := he
      exact ⟨List.prefix_refl _, id⟩
    · simp only [collectH] at he
      rcases harr : h.arrays[aid]? with _ | items
      · rw [harr] at he
        try dsimp only at he
        simp only [Option.some.injEq, Prod.mk.injEq] at he
        obtain ⟨-, rfl⟩ := he
        exact ⟨List.prefix_refl _, id⟩
      · rw [harr] at he
        try dsimp only at he
        exact collectHList_growth_of h f ihf items out visited out' visited' he
    · simp only [collectH] at he
      by_cases hid : oid ∈ visited
      · rw [if_pos hid] at he
        simp only [Option.some.injEq, Prod.mk.injEq] at he
        obtain ⟨-, rfl⟩ := he
        exact ⟨List.prefix_refl _, id⟩
      · rw [if_neg hid] at he
        rcases hobj : h.objects[oid]? with _ | fields
        · rw [hobj] at he
          try dsimp only at he
          simp only [Option.some.injEq, Prod.mk.injEq] at he
          obtain ⟨-, rfl⟩ := he
          exact ⟨List.prefix_refl _, id⟩
        · rw [hobj] at he
          try dsimp only at he
          have hbase : visited <+: visited ++ [oid] := List.prefix_append _ _
          have g := collectHPairs_growth_of h f ihf fields out (visited ++ [oid])
            out' visited' he
          exact ⟨hbase.trans g.1, fun hnd => g.2 (nodup_append_id hnd hid)⟩

/-- Fuel sufficiency for the collector's array loop. -/
theorem collectHList_suff (h : Heap) (rank : Nat → Nat) (R : Nat) (fuel : Nat)
    (hH : ∀ v out visited, callMeasure h rank R visited v ≤ fuel →
      (collectH h fuel v out visited).isSome) :
    ∀ items out visited, (∀ v ∈ items, callMeasure h rank R visited v ≤ fuel) →
      (collectHList h fuel items out visited).isSome := by
  intro items
  induction items with
  | nil =>
    intro out visited _
    simp [collectHList]
  | cons a rest ih =>
    intro out visited hm
    have h1 := hH a out visited (hm a (List.mem_cons_self a rest))
    rcases hv : collectH h fuel a out visited with _ | ⟨out₁, V₁⟩
    · rw [hv] at h1
      cases h1
    · simp only [collectHList]
      rw [hv]
      try dsimp only
      apply ih out₁ V₁
      intro w hw
      have hpre := (collectH_growth h fuel a out visited _ _ hv).1
      exact le_trans (callMeasure_mono h rank R hpre.subset w)
        (hm w (List.mem_cons_of_mem _ hw))

/-- Fuel sufficiency for the collector's object-values loop. -/
theorem collectHPairs_suff (h : Heap) (rank : Nat → Nat) (R : Nat) (fuel : Nat)
    (hH : ∀ v out visited, callMeasure h rank R visited v ≤ fuel →
      (collectH h fuel v out visited).isSome) :
    ∀ pairs out visited, (∀ p ∈ pairs, callMeasure h rank R visited p.2 ≤ fuel) →
      (collectHPairs h fuel pairs out visited).isSome := by
  intro pairs
  induction pairs with
  | nil =>
    intro out visited _
    simp [collectHPairs]
  | cons p rest ih =>
    obtain ⟨k, v⟩ := p
    intro out visited hm
    have h1 := hH v out visited (hm (k, v) (List.mem_cons_self _ _))
    rcases hv : collectH h fuel v out visited with _ | ⟨out₁, V₁⟩
    · rw [hv] at h1
      cases h1
    · simp only [collectHPairs]
      rw [hv]
      try dsimp only
      apply ih out₁ V₁
      intro q hq
      have hpre := (collectH_growth h fuel v out visited _ _ hv).1
      exact le_trans (callMeasure_mono h rank R hpre.subset q.2)
        (hm q (List.mem_cons_of_mem _ hq))

/-- Fuel sufficiency for `collectH`: when every cycle passes through an
object the collector terminates. -/
theorem collectH_suff (h : Heap) (rank : Nat → Nat) (R : Nat)
    (hR : ∀ id, id < h.arrays.length → rank id < R)
    (hdec : ∀ id items, h.arrays[id]? = some items →
      ∀ id2, HVal.arrRef id2 ∈ items → id2 < h.arrays.length → rank id2 < rank id) :
    ∀ fuel v out visited, callMeasure h rank R visited v ≤ fuel →
      (collectH h fuel v out visited).isSome := by
  intro fuel
  induction fuel with
  | zero =>
    intro v out visited hm
    unfold callMeasure at hm
    omega
  | succ f ihf =>
    intro v out visited hm
    rcases v with _ | b | n | s | aid | oid
    · simp [collectH]
    · simp [collectH]
    · simp [collectH]
    · simp [collectH]
    · simp only [collectH]
      rcases harr : h.arrays[aid]? with _ | items
      · simp
      · try dsimp only
        have hvalid : aid < h.arrays.length := getElem?_lt_length harr
        apply collectHList_suff h rank R f ihf items out visited
        intro w hw
        unfold callMeasure at hm ⊢
        have hva : valRank h rank (.arrRef aid) = rank aid + 1 := by
          simp [valRank, hvalid]
        rw [hva] at hm
        have hwle : valRank h rank w ≤ rank aid := by
          cases w with
          | arrRef id2 =>
            by_cases hv2 : id2 < h.arrays.length
            · simp only [valRank, if_pos hv2]
              exact hdec aid items harr id2 hw hv2
            · simp only [valRank, if_neg hv2]
              omega
          | null => simp [valRank]
          | bool b => simp [valRank]
          | num n => simp [valRank]
          | str s => simp [valRank]
          | objRef id2 => simp [valRank]
        omega
    · simp only [collectH]
      by_cases hid : oid ∈ visited
      · rw [if_pos hid]
        simp
      · rw [if_neg hid]
        rcases hobj : h.objects[oid]? with _ | fields
        · simp
        · try dsimp only
          have hvalid : oid < h.objects.length := getElem?_lt_length hobj
          have hUdec := unvisitedCount_lt_append h hvalid hid
          have hmul : (unvisitedCount h (visited ++ [oid]) + 1) * (R + 2) ≤
              unvisitedCount h visited * (R + 2) :=
            Nat.mul_le_mul_right _ hUdec
          apply collectHPairs_suff h rank R f ihf fields out (visited ++ [oid])
          intro p _
          unfold callMeasure at hm ⊢
          have hvr := valRank_le h rank R hR p.2
          have hvo : valRank h rank (.objRef oid) = 0 := by simp [valRank]
          have hx : (unvisitedCount h (visited ++ [oid]) + 1) * (R + 2) =
              unvisitedCount h (visited ++ [oid]) * (R + 2) + (R + 2) := by ring
          omega

/-- C3 (amended): on a cyclic value all of whose reference cycles pass
through an *object* — stated as: the direct array-to-array reference
graph admits a rank function, i.e. is acyclic — both
`extractTextFromUnknown` and `collectStringsFromUnknown` terminate
(any fuel at least `|objects|·(R+2) + R + 2` suffices), and neither
enters the same object twice: the visited list they build is free of
duplicates.  A cycle passing only through arrays, by contrast, makes
both diverge (`C3_counterexample_self_array`), because the source adds
only objects to its visited set. -/
theorem C3_object_guarded_cycles_terminate (h : Heap) (rank : Nat → Nat) (R : Nat)
    (hR : ∀ id, id < h.arrays.length → rank id < R)
    (hdec : ∀ id items, h.arrays[id]? = some items →
      ∀ id2, HVal.arrRef id2 ∈ items → id2 < h.arrays.length → rank id2 < rank id)
    (v : HVal) (fuel : Nat)
    (hfuel : h.objects.length * (R + 2) + R + 2 ≤ fuel) :
    (∃ r visited', extractH h fuel v [] = some (r, visited') ∧ visited'.Nodup) ∧
    (∃ out' visited', collectH h fuel v [] [] = some (out', visited') ∧ visited'.Nodup) := by
  have hcard : unvisitedCount h [] ≤ h.objects.length := by
    unfold unvisitedCount
    calc ((Finset.range h.objects.length).filter _).card
        ≤ (Finset.range h.objects.length).card := Finset.card_filter_le _ _
      _ = h.objects.length := Finset.card_range _
  have hμ : callMeasure h rank R [] v ≤ fuel := by
    unfold callMeasure
    have h1 := valRank_le h rank R hR v
    have h2 : unvisitedCount h [] * (R + 2) ≤ h.objects.length * (R + 2) :=
      Nat.mul_le_mul_right _ hcard
    omega
  constructor
  · have hs := extractH_suff h rank R hR hdec fuel v [] hμ
    rcases hres : extractH h fuel v [] with _ | ⟨r, V'⟩
    · rw [hres] at hs
      cases hs
    · exact ⟨r, V', rfl, (extractH_growth h fuel v [] r V' hres).2 List.nodup_nil⟩
  · have hs := collectH_suff h rank R hR hdec fuel v [] [] hμ
    rcases hres : collectH h fuel v [] [] with _ | ⟨out', V'⟩
    · rw [hres] at hs
      cases hs
    · exact ⟨out', V', rfl, (collectH_growth h fuel v [] [] _ _ hres).2 List.nodup_nil⟩

/-- A heap with a genuine cycle that passes through an object: object 0
holds array 0, which holds object 0 again. -/
def cyclicObjHeap : Heap :=
  { arrays := [[.objRef 0]], objects := [[("a", .arrRef 0)]] }

/-- C3 witness: on the object-guarded cycle `cyclicObjHeap`, fuel 6
suffices for both traversals and the visited lists are duplicate
free. -/
theorem C3_object_guarded_cycles_terminate_witness :
    (∃ r visited', extractH cyclicObjHeap 6 (.objRef 0) [] = some (r, visited') ∧
      visited'.Nodup) ∧
    (∃ out' visited', collectH cyclicObjHeap 6 (.objRef 0) [] [] = some (out', visited') ∧
      visited'.Nodup) :=
  C3_object_guarded_cycles_terminate cyclicObjHeap (fun _ => 0) 1
    (fun _ _ => Nat.one_pos)
    (by
      intro id items hid id2 hmem hlt
      cases id with
      | zero =>
        simp only [cyclicObjHeap] at hid
        simp only [List.getElem?_cons_zero, Option.some.injEq] at hid
        subst hid
        simp at hmem
      | succ n =>
        simp only [cyclicObjHeap] at hid
        simp at hid)
    (.objRef 0) 6 (by decide)
